import Mathlib

/-!
Verification of the textDB versioning core and its Markdown renderer.

The first half of this file is a shallow embedding of the Version Store
(`src/lib/db.ts`): each SQL table becomes a Lean list of rows (in rowid /
insertion order), each exported function becomes a Lean function on a
`DBState`.  SQL statements that can fail on a constraint (PRIMARY KEY,
FOREIGN KEY — `PRAGMA foreign_keys = ON` is the first migration) return
`Except SqlError DBState`; statements that cannot fail are total.
`Date.now()` and `crypto.randomUUID()` are environment inputs, so the
timestamps and fresh identifiers they produce are explicit parameters.

`ORDER BY` is modelled with `List.insertionSort` over a relation that is a
faithful translation of the SQL sort key; SQLite leaves the relative order
of rows with equal keys unspecified, and the theorems below avoid relying
on tie order.
-/

namespace TextDB

/-- `prompt_versions.kind` — `CHECK(kind IN ('manual','autosave'))`. -/
inductive VKind
  | manual
  | autosave
deriving DecidableEq

/-- A row of the `prompts` table (exported type `Text` in db.ts). -/
structure Prompt where
  id : String
  title : String
  created_at : Nat
  updated_at : Nat
  last_saved_version_id : Option String
  folder_id : Option String
  sort_order : Option Int
deriving DecidableEq

/-- A row of the `folders` table. -/
structure Folder where
  id : String
  name : String
  parent_id : Option String
  created_at : Nat
  updated_at : Nat
  sort_order : Option Int
deriving DecidableEq

/-- A row of the `prompt_versions` table. -/
structure TextVersion where
  id : String
  prompt_id : String
  body : String
  created_at : Nat
  kind : VKind
  note : Option String
deriving DecidableEq

/-- A row of the `prompt_drafts` table (primary key `prompt_id`). -/
structure TextDraft where
  prompt_id : String
  body : String
  updated_at : Nat
  base_version_id : Option String
deriving DecidableEq

/-- The persisted database: the four tables, each in rowid order. -/
structure DBState where
  folders : List Folder
  prompts : List Prompt
  versions : List TextVersion
  drafts : List TextDraft
deriving DecidableEq

/-- Storage-level constraint failures surfaced by a single statement. -/
inductive SqlError
  | pkViolation
  | fkViolation
deriving DecidableEq

instance : DecidableEq (Except SqlError DBState) := fun a b =>
  match a, b with
  | .ok x, .ok y =>
      if h : x = y then isTrue (by rw [h]) else isFalse (fun he => h (Except.ok.inj he))
  | .error x, .error y =>
      if h : x = y then isTrue (by rw [h]) else isFalse (fun he => h (Except.error.inj he))
  | .ok _, .error _ => isFalse (fun he => Except.noConfusion he)
  | .error _, .ok _ => isFalse (fun he => Except.noConfusion he)

/-- One SQL statement, as a state transformer that can fail. -/
def Stmt : Type := DBState → Except SqlError DBState

/-- Run statements in sequence, stopping at the first failure.  There is no
transaction here: the state reached before a failure is what stays
persisted, exactly as in db.ts, where `createText`, `saveManualVersion`
and `deleteTextVersion` issue their statements without `BEGIN`/`ROLLBACK`
(unlike `setTextOrder`/`setFolderOrder`). -/
def runStmts : List Stmt → DBState → Except SqlError DBState
  | [], s => .ok s
  | f :: fs, s =>
    match f s with
    | .ok s1 => runStmts fs s1
    | .error e => .error e

def promptIds (s : DBState) : List String := s.prompts.map (·.id)

def versionIds (s : DBState) : List String := s.versions.map (·.id)

def folderIdsOf (s : DBState) : List String := s.folders.map (·.id)

/-- `INSERT INTO prompts(...)`: primary key on `id`; `folder_id` references
`folders(id)`; `last_saved_version_id` carries no foreign key, so it may
point at a version row that does not (yet) exist. -/
def insertPromptStmt (p : Prompt) : Stmt := fun s =>
  if p.id ∈ promptIds s then .error .pkViolation
  else
    match p.folder_id with
    | some fid =>
        if fid ∈ folderIdsOf s then .ok { s with prompts := s.prompts ++ [p] }
        else .error .fkViolation
    | none => .ok { s with prompts := s.prompts ++ [p] }

/-- `INSERT INTO prompt_versions(...)`: primary key on `id`; `prompt_id`
references `prompts(id)`. -/
def insertVersionStmt (v : TextVersion) : Stmt := fun s =>
  if v.id ∈ versionIds s then .error .pkViolation
  else if v.prompt_id ∈ promptIds s then .ok { s with versions := s.versions ++ [v] }
  else .error .fkViolation

/-- `DELETE FROM prompt_drafts WHERE prompt_id = $1` — cannot fail. -/
def deleteDraftsStmt (promptId : String) : Stmt := fun s =>
  .ok { s with drafts := s.drafts.filter (fun d => d.prompt_id != promptId) }

/-- `UPDATE prompts SET title, updated_at, last_saved_version_id WHERE id` —
cannot fail (`last_saved_version_id` has no foreign key). -/
def updatePromptSavedStmt (promptId title : String) (now : Nat) (versionId : String) :
    Stmt := fun s =>
  .ok { s with
        prompts := s.prompts.map (fun p =>
          if p.id == promptId then
            { p with title := title, updated_at := now,
                     last_saved_version_id := some versionId }
          else p) }

/-- The three statements issued by `createText` (db.ts:190-214), in order:
insert the prompt row (already pointing at `versionId`), insert the initial
manual version, clear any stale draft. -/
def createTextStmts (title body : String) (folderId : Option String)
    (sortOrder : Option Int) (textId versionId : String) (now : Nat) : List Stmt :=
  [ insertPromptStmt
      { id := textId, title := title, created_at := now, updated_at := now,
        last_saved_version_id := some versionId, folder_id := folderId,
        sort_order := sortOrder },
    insertVersionStmt
      { id := versionId, prompt_id := textId, body := body, created_at := now,
        kind := .manual, note := none },
    deleteDraftsStmt textId ]

def createText (s : DBState) (title body : String) (folderId : Option String)
    (sortOrder : Option Int) (textId versionId : String) (now : Nat) :
    Except SqlError DBState :=
  runStmts (createTextStmts title body folderId sortOrder textId versionId now) s

/-- The three statements issued by `saveManualVersion` (db.ts:330-352), in
order: insert the new manual version, re-point the prompt row at it, delete
any draft. -/
def saveManualVersionStmts (promptId title body versionId : String) (now : Nat) :
    List Stmt :=
  [ insertVersionStmt
      { id := versionId, prompt_id := promptId, body := body, created_at := now,
        kind := .manual, note := none },
    updatePromptSavedStmt promptId title now versionId,
    deleteDraftsStmt promptId ]

def saveManualVersion (s : DBState) (promptId title body versionId : String)
    (now : Nat) : Except SqlError DBState :=
  runStmts (saveManualVersionStmts promptId title body versionId now) s

/-- `upsertDraft` (db.ts:367-383): a single
`INSERT ... ON CONFLICT(prompt_id) DO UPDATE` statement.  On conflict the
existing row is overwritten in place; otherwise the insert checks the
`prompt_id → prompts(id)` foreign key. -/
def upsertDraft (s : DBState) (promptId body : String)
    (baseVersionId : Option String) (now : Nat) : Except SqlError DBState :=
  if s.drafts.any (fun d => d.prompt_id == promptId) then
    .ok { s with
          drafts := s.drafts.map (fun d =>
            if d.prompt_id == promptId then
              { prompt_id := promptId, body := body, updated_at := now,
                base_version_id := baseVersionId }
            else d) }
  else if promptId ∈ promptIds s then
    .ok { s with
          drafts := s.drafts ++
            [{ prompt_id := promptId, body := body, updated_at := now,
               base_version_id := baseVersionId }] }
  else .error .fkViolation

/-- `discardDraft` (db.ts:385-388). -/
def discardDraft (s : DBState) (promptId : String) : DBState :=
  { s with drafts := s.drafts.filter (fun d => d.prompt_id != promptId) }

/-- `deleteText` (db.ts:390-393): `DELETE FROM prompts WHERE id = $1`; the
`ON DELETE CASCADE` clauses remove the document's versions and draft. -/
def deleteText (s : DBState) (promptId : String) : DBState :=
  { s with
    prompts := s.prompts.filter (fun p => p.id != promptId),
    versions := s.versions.filter (fun v => v.prompt_id != promptId),
    drafts := s.drafts.filter (fun d => d.prompt_id != promptId) }

/-- `updateTextTitle` (db.ts:354-365). -/
def updateTextTitle (s : DBState) (promptId title : String) (now : Nat) : DBState :=
  { s with
    prompts := s.prompts.map (fun p =>
      if p.id == promptId then { p with title := title, updated_at := now } else p) }

/-! ### Query ordering

`listTexts`/`searchTexts` sort by
`CASE WHEN sort_order IS NULL THEN 1 ELSE 0 END, sort_order ASC, updated_at DESC`;
version queries sort by `created_at DESC`. -/

/-- The composite sort key of `listTexts`/`searchTexts` as a relation:
rows with a `sort_order` come first (ascending), the rest follow ordered by
`updated_at` descending. -/
def promptLE (a b : Prompt) : Bool :=
  match a.sort_order, b.sort_order with
  | some x, some y => decide (x < y) || (decide (x = y) && decide (b.updated_at ≤ a.updated_at))
  | some _, none => true
  | none, some _ => false
  | none, none => decide (b.updated_at ≤ a.updated_at)

def promptRel (a b : Prompt) : Prop := promptLE a b = true

instance : DecidableRel promptRel := fun a b => inferInstanceAs (Decidable (_ = true))

/-- `created_at DESC` on version rows. -/
def verRel (a b : TextVersion) : Prop := b.created_at ≤ a.created_at

instance : DecidableRel verRel := fun a b =>
  inferInstanceAs (Decidable (b.created_at ≤ a.created_at))

instance : IsTotal TextVersion verRel :=
  ⟨fun a b => by unfold verRel; omega⟩

instance : IsTrans TextVersion verRel :=
  ⟨fun a b c h1 h2 => by unfold verRel at *; omega⟩

instance : IsTotal Prompt promptRel := by
  constructor
  intro a b
  obtain ⟨_, _, _, ua, _, _, oa⟩ := a
  obtain ⟨_, _, _, ub, _, _, ob⟩ := b
  unfold promptRel promptLE
  rcases oa with _ | x <;> rcases ob with _ | y <;> simp <;> omega

instance : IsTrans Prompt promptRel := by
  constructor
  intro a b c h1 h2
  obtain ⟨_, _, _, ua, _, _, oa⟩ := a
  obtain ⟨_, _, _, ub, _, _, ob⟩ := b
  obtain ⟨_, _, _, uc, _, _, oc⟩ := c
  unfold promptRel promptLE at *
  rcases oa with _ | x <;> rcases ob with _ | y <;> rcases oc with _ | z <;>
    simp_all <;> omega

/-- `LIKE` pattern matching as used by `searchTexts`: `%` matches any
sequence, `_` any single character, anything else itself.  Both sides have
already been lowercased (`LOWER(...)` / `.toLowerCase()`), so plain
character equality is the remaining comparison.  Structural fuel recursion
(the fuel bound `pat.length + target.length` always suffices) keeps the
function kernel-reducible. -/
def likeMatchFuel : Nat → List Char → List Char → Bool
  | 0, _, _ => false
  | _ + 1, [], [] => true
  | _ + 1, [], _ :: _ => false
  | f + 1, c :: ps, t =>
    if c == '%' then
      likeMatchFuel f ps t ||
        (match t with
         | [] => false
         | _ :: ts => likeMatchFuel f (c :: ps) ts)
    else
      match t with
      | [] => false
      | d :: ts => (c == '_' || c == d) && likeMatchFuel f ps ts

def likeMatch (pat target : List Char) : Bool :=
  likeMatchFuel (pat.length + target.length + 1) pat target

/-- ASCII lower-casing, the effect of SQLite's `LOWER(...)` (and of
`.toLowerCase()` on the ASCII inputs the claims exercise). -/
def lowerChar (c : Char) : Char :=
  if 'A' ≤ c ∧ c ≤ 'Z' then Char.ofNat (c.toNat + 32) else c

def lowerStr (t : String) : List Char := t.toList.map lowerChar

/-- `listTexts` (db.ts:117-127). -/
def listTexts (s : DBState) : List Prompt :=
  List.insertionSort promptRel s.prompts

/-- `searchTexts` (db.ts:129-149): pattern `%term.toLowerCase()%` against
`LOWER(title)` or, via `EXISTS`, against `LOWER(body)` of any of the
document's versions; same ordering as `listTexts`.  The term is injected
into the pattern unescaped, exactly as in the source. -/
def searchTexts (s : DBState) (term : String) : List Prompt :=
  let pat : List Char := '%' :: lowerStr term ++ ['%']
  List.insertionSort promptRel
    (s.prompts.filter (fun p =>
      likeMatch pat (lowerStr p.title) ||
        s.versions.any (fun v =>
          v.prompt_id == p.id && likeMatch pat (lowerStr v.body))))

/-- `getText` (db.ts:151-158): `... WHERE id = $1 LIMIT 1`. -/
def getText (s : DBState) (promptId : String) : Option Prompt :=
  s.prompts.find? (fun p => p.id == promptId)

/-- `getLatestManualVersion` (db.ts:160-169):
`WHERE prompt_id = $1 AND kind = 'manual' ORDER BY created_at DESC LIMIT 1`. -/
def getLatestManualVersion (s : DBState) (promptId : String) : Option TextVersion :=
  (List.insertionSort verRel
    (s.versions.filter (fun v => v.prompt_id == promptId && v.kind == VKind.manual))).head?

/-- `listVersions` (db.ts:171-179). -/
def listVersions (s : DBState) (promptId : String) : List TextVersion :=
  List.insertionSort verRel (s.versions.filter (fun v => v.prompt_id == promptId))

/-- `getDraft` (db.ts:181-188). -/
def getDraft (s : DBState) (promptId : String) : Option TextDraft :=
  s.drafts.find? (fun d => d.prompt_id == promptId)

/-- `deleteTextVersion` (db.ts:395-416).  The `DELETE` identifies the row by
`versionId` alone.  The subsequent `SELECT last_saved_version_id ... WHERE id
= promptId` yields `null` when the prompt row is absent
(`promptRows[0]?... ?? null`), and `null !== versionId` always holds, so the
re-pointing branch runs only when the named document's pointer equalled the
deleted id.  All statements here are constraint-free, so the operation is
total. -/
def deleteTextVersion (s : DBState) (promptId versionId : String) : DBState :=
  let s1 : DBState := { s with versions := s.versions.filter (fun v => v.id != versionId) }
  let currentLastSaved : Option String :=
    match s1.prompts.find? (fun p => p.id == promptId) with
    | some p => p.last_saved_version_id
    | none => none
  if currentLastSaved == some versionId then
    let nextId : Option String :=
      ((List.insertionSort verRel
        (s1.versions.filter (fun v =>
          v.prompt_id == promptId && v.kind == VKind.manual))).head?).map (·.id)
    { s1 with
      prompts := s1.prompts.map (fun p =>
        if p.id == promptId then { p with last_saved_version_id := nextId } else p) }
  else s1

/-! ### Folder and ordering operations (db.ts:216-329)

These never touch `prompt_versions` or `prompt_drafts`; they are modelled so
that reachability below ranges over every mutation the module exports.
Foreign-key failures of the folder operations would leave the state
unchanged and are not claim-relevant, so the success path is modelled. -/

def createFolder (s : DBState) (name : String) (parentId : Option String)
    (sortOrder : Option Int) (folderId : String) (now : Nat) : DBState :=
  { s with
    folders := s.folders ++
      [{ id := folderId, name := name, parent_id := parentId, created_at := now,
         updated_at := now, sort_order := sortOrder }] }

def updateFolderName (s : DBState) (folderId name : String) (now : Nat) : DBState :=
  { s with
    folders := s.folders.map (fun f =>
      if f.id == folderId then { f with name := name, updated_at := now } else f) }

def moveFolder (s : DBState) (folderId : String) (parentId : Option String)
    (sortOrder : Option Int) (now : Nat) : DBState :=
  { s with
    folders := s.folders.map (fun f =>
      if f.id == folderId then
        { f with parent_id := parentId, sort_order := sortOrder, updated_at := now }
      else f) }

def setFolderOrder (s : DBState) (folderIds : List String) : DBState :=
  { s with
    folders :=
      (folderIds.enum).foldl
        (fun fs (idi : Nat × String) =>
          fs.map (fun f =>
            if f.id == idi.2 then { f with sort_order := some (idi.1 : Int) } else f))
        s.folders }

/-- `deleteFolder` (db.ts:281-299): promote children and contained prompts
to the deleted folder's parent, then delete the folder row. -/
def deleteFolder (s : DBState) (folderId : String) (now : Nat) : DBState :=
  let parentId : Option String :=
    match s.folders.find? (fun f => f.id == folderId) with
    | some f => f.parent_id
    | none => none
  { s with
    folders :=
      (s.folders.map (fun f =>
        if f.parent_id == some folderId then
          { f with parent_id := parentId, updated_at := now }
        else f)).filter (fun f => f.id != folderId),
    prompts := s.prompts.map (fun p =>
      if p.folder_id == some folderId then
        { p with folder_id := parentId, updated_at := now }
      else p) }

def moveTextToFolder (s : DBState) (textId : String) (folderId : Option String)
    (sortOrder : Option Int) (now : Nat) : DBState :=
  { s with
    prompts := s.prompts.map (fun p =>
      if p.id == textId then
        { p with folder_id := folderId, sort_order := sortOrder, updated_at := now }
      else p) }

def setTextOrder (s : DBState) (textIds : List String) : DBState :=
  { s with
    prompts :=
      (textIds.enum).foldl
        (fun ps (idi : Nat × String) =>
          ps.map (fun p =>
            if p.id == idi.2 then { p with sort_order := some (idi.1 : Int) } else p))
        s.prompts }

/-- States reachable from a freshly migrated (empty) database through the
operations the module exports. -/
inductive Reachable : DBState → Prop where
  | empty : Reachable { folders := [], prompts := [], versions := [], drafts := [] }
  | createText {s s1 title body folderId sortOrder textId versionId now} :
      Reachable s →
      createText s title body folderId sortOrder textId versionId now = .ok s1 →
      Reachable s1
  | saveManualVersion {s s1 promptId title body versionId now} :
      Reachable s →
      saveManualVersion s promptId title body versionId now = .ok s1 →
      Reachable s1
  | upsertDraft {s s1 promptId body baseVersionId now} :
      Reachable s →
      upsertDraft s promptId body baseVersionId now = .ok s1 →
      Reachable s1
  | discardDraft {s promptId} : Reachable s → Reachable (discardDraft s promptId)
  | deleteText {s promptId} : Reachable s → Reachable (deleteText s promptId)
  | deleteTextVersion {s promptId versionId} :
      Reachable s → Reachable (deleteTextVersion s promptId versionId)
  | updateTextTitle {s promptId title now} :
      Reachable s → Reachable (updateTextTitle s promptId title now)
  | createFolder {s name parentId sortOrder folderId now} :
      Reachable s → Reachable (createFolder s name parentId sortOrder folderId now)
  | updateFolderName {s folderId name now} :
      Reachable s → Reachable (updateFolderName s folderId name now)
  | moveFolder {s folderId parentId sortOrder now} :
      Reachable s → Reachable (moveFolder s folderId parentId sortOrder now)
  | setFolderOrder {s folderIds} : Reachable s → Reachable (setFolderOrder s folderIds)
  | deleteFolder {s folderId now} : Reachable s → Reachable (deleteFolder s folderId now)
  | moveTextToFolder {s textId folderId sortOrder now} :
      Reachable s → Reachable (moveTextToFolder s textId folderId sortOrder now)
  | setTextOrder {s textIds} : Reachable s → Reachable (setTextOrder s textIds)

/-- A document whose `last_saved_version_id` names no existing version row. -/
def hasDanglingSavedPointer (s : DBState) : Bool :=
  s.prompts.any (fun p =>
    match p.last_saved_version_id with
    | some vid => !(s.versions.any (fun v => v.id == vid))
    | none => false)

/-- The keys of the draft table are pairwise distinct (its primary key). -/
def draftKeysNodup (s : DBState) : Prop :=
  (s.drafts.map (·.prompt_id)).Nodup

/-! ### Concrete states used by counterexamples and witnesses -/

def emptyDB : DBState := ⟨[], [], [], []⟩

def pA7 : Prompt := ⟨"a", "A", 0, 1, none, none, some 0⟩

def pB7 : Prompt := ⟨"b", "B", 0, 2, none, none, some 1⟩

def s7 : DBState := ⟨[], [pA7, pB7], [], []⟩

def pTen : Prompt := ⟨"p1", "abc", 0, 1, none, none, none⟩

def sTen : DBState := ⟨[], [pTen], [⟨"v1", "p1", "def", 1, .manual, none⟩], []⟩

def s3 : DBState :=
  ⟨[], [⟨"p1", "One", 0, 0, some "v1", none, none⟩,
        ⟨"p2", "Two", 0, 0, some "v2", none, none⟩],
      [⟨"v1", "p1", "a", 1, .manual, none⟩,
       ⟨"v2", "p2", "b", 1, .manual, none⟩], []⟩

def d1c2 : TextDraft := ⟨"p1", "draft-body", 5, none⟩

def s2pre : DBState :=
  ⟨[], [⟨"p1", "T", 0, 0, some "v1", none, none⟩],
      [⟨"v1", "p1", "old", 1, .manual, none⟩], [d1c2]⟩

def s2mid : DBState :=
  { s2pre with versions := s2pre.versions ++ [⟨"v2", "p1", "new", 20, .manual, none⟩] }

def sCmid : DBState := ⟨[], [⟨"pX", "T", 5, 5, some "vX", none, none⟩], [], []⟩

def s8 : DBState := ⟨[], [⟨"p1", "T", 0, 5, none, none, none⟩], [], []⟩

def s9 : DBState :=
  ⟨[], [⟨"p1", "One", 0, 0, none, none, none⟩,
        ⟨"p2", "Two", 0, 0, some "v2", none, none⟩],
      [⟨"v2", "p2", "b", 1, .manual, none⟩], []⟩

def s1w : DBState :=
  ⟨[], [⟨"p1", "T", 0, 0, none, none, none⟩],
      [⟨"v1", "p1", "old", 1, .manual, none⟩], []⟩

def sdel3 : DBState :=
  ⟨[], [⟨"p1", "T", 0, 0, some "v2", none, none⟩],
      [⟨"v1", "p1", "a", 1, .manual, none⟩,
       ⟨"v2", "p1", "b", 2, .manual, none⟩], []⟩

def sC4 : DBState :=
  ⟨[], [⟨"p1", "T", 3, 3, some "v1", none, none⟩],
      [⟨"v1", "p1", "B", 3, .manual, none⟩], []⟩

/-! ### Helper lemmas -/

/-- The head of a `created_at DESC` sort is the strictly newest element. -/
theorem latest_head (l : List TextVersion) (x : TextVersion) (hx : x ∈ l)
    (hmax : ∀ y ∈ l, y ≠ x → y.created_at < x.created_at) :
    (List.insertionSort verRel l).head? = some x := by
  have hsort : List.Sorted verRel (List.insertionSort verRel l) :=
    List.sorted_insertionSort verRel l
  have hmem : x ∈ List.insertionSort verRel l := (List.mem_insertionSort verRel).2 hx
  cases hsl : List.insertionSort verRel l with
  | nil => rw [hsl] at hmem; cases hmem
  | cons h t =>
    rw [hsl] at hmem hsort
    by_cases hhx : h = x
    · simp [hhx]
    · have hxt : x ∈ t := by
        cases hmem with
        | head => exact absurd rfl hhx
        | tail _ hm => exact hm
      have hrel : verRel h x := List.rel_of_sorted_cons hsort x hxt
      have hh : h ∈ l := (List.mem_insertionSort verRel).1 (hsl ▸ List.mem_cons_self h t)
      have hlt := hmax h hh hhx
      unfold verRel at hrel
      omega

/-- With pairwise-distinct ids, `find?` by id returns the unique row. -/
theorem find?_id_of_nodup (l : List Prompt) (p : Prompt) (hp : p ∈ l)
    (hnd : (l.map (·.id)).Nodup) :
    l.find? (fun q => q.id == p.id) = some p := by
  induction l with
  | nil => cases hp
  | cons q qs ih =>
    rw [List.map_cons, List.nodup_cons] at hnd
    cases hp with
    | head => simp [List.find?]
    | tail _ hm =>
      have hne : ¬(q.id == p.id) = true := by
        intro hb
        exact hnd.1 (beq_iff_eq.1 hb ▸ List.mem_map_of_mem (·.id) hm)
      simp only [List.find?, hne]
      simp only [Bool.false_eq_true, if_false] at *
      exact ih hm hnd.2

/-! ### C9 -/

/-- C9: `deleteTextVersion(documentId, versionId)` deletes the version row
identified by `versionId` unconditionally — the `DELETE` carries no
`prompt_id` condition — and every prompt row other than `documentId`'s is
left exactly as it was, so only `documentId`'s pointer is ever re-pointed. -/
theorem deleteTextVersion_deletes_unconditionally (s : DBState) (pid vid : String) :
    (deleteTextVersion s pid vid).versions = s.versions.filter (fun v => v.id != vid) ∧
    ∀ p ∈ (deleteTextVersion s pid vid).prompts, p.id ≠ pid → p ∈ s.prompts := by
  constructor
  · unfold deleteTextVersion
    dsimp only
    split <;> rfl
  · intro p hp hne
    unfold deleteTextVersion at hp
    dsimp only at hp
    split at hp
    · obtain ⟨q, hq, hfq⟩ := List.mem_map.1 hp
      by_cases hqid : (q.id == pid) = true
      · rw [if_pos hqid] at hfq
        rw [← hfq] at hne
        exact absurd (beq_iff_eq.1 hqid) hne
      · rw [if_neg hqid] at hfq
        exact hfq ▸ hq
    · exact hp

/-- Witness for C9 at a concrete two-document state: deleting `v2` (which
belongs to `p2`) through a call that names `p1` still removes the row, and
`p2`'s row survives untouched. -/
theorem deleteTextVersion_deletes_unconditionally_witness :
    (deleteTextVersion s9 "p1" "v2").versions = [] ∧
    (⟨"p2", "Two", 0, 0, some "v2", none, none⟩ : Prompt) ∈ s9.prompts :=
  ⟨(deleteTextVersion_deletes_unconditionally s9 "p1" "v2").1.trans (by decide),
   (deleteTextVersion_deletes_unconditionally s9 "p1" "v2").2
     ⟨"p2", "Two", 0, 0, some "v2", none, none⟩ (by decide) (by decide)⟩

/-! ### C10 -/

/-- C10: `searchTexts` interpolates the raw term into the `LIKE` pattern
without escaping `%`/`_`, so the term `"%"` matches every document: here it
returns a document whose title (`"abc"`) and whose only version body
(`"def"`) do not contain `"%"` literally. -/
theorem searchTexts_unescaped_wildcard :
    searchTexts sTen "%" = [pTen] ∧
    ('%' ∉ pTen.title.toList) ∧
    (∀ v ∈ sTen.versions, '%' ∉ v.body.toList) := by
  decide

/-! ### C7 -/

/-- C7 counterexample: with explicit `sort_order` values present, `listTexts`
and `searchTexts` order by `sort_order` first, so the listing is not
most-recently-updated first: `pA7` (updated at 1) precedes `pB7`
(updated at 2). -/
theorem listings_not_recency_ordered :
    listTexts s7 = [pA7, pB7] ∧ searchTexts s7 "" = [pA7, pB7] ∧
    pA7.updated_at < pB7.updated_at := by
  decide

/-- C7 amended: `listTexts`/`searchTexts` order by the composite key
(explicitly sort-ordered documents first, ascending; then most recently
updated first), and `listVersions` returns exactly the document's versions
ordered most recently created first. -/
theorem listings_sorted (s : DBState) (term pid : String) :
    (listTexts s).Sorted promptRel ∧ List.Perm (listTexts s) s.prompts ∧
    (searchTexts s term).Sorted promptRel ∧
    (listVersions s pid).Sorted verRel ∧
    (∀ v, v ∈ listVersions s pid ↔ (v ∈ s.versions ∧ v.prompt_id = pid)) := by
  refine ⟨List.sorted_insertionSort _ _, List.perm_insertionSort _ _,
    List.sorted_insertionSort _ _, List.sorted_insertionSort _ _, ?_⟩
  intro v
  rw [listVersions, List.mem_insertionSort, List.mem_filter]
  simp

/-- Witness for C7 (amended) at a concrete state. -/
theorem listings_sorted_witness :
    (listTexts s7).Sorted promptRel ∧ List.Perm (listTexts s7) s7.prompts ∧
    (searchTexts s7 "x").Sorted promptRel ∧
    (listVersions s7 "a").Sorted verRel ∧
    (∀ v, v ∈ listVersions s7 "a" ↔ (v ∈ s7.versions ∧ v.prompt_id = "a")) :=
  listings_sorted s7 "x" "a"

/-! ### C3 (counterexample part) -/

/-- C3 counterexample: starting from a state with no dangling pointer,
`deleteTextVersion("p1", "v2")` — where `"v2"` is document `p2`'s latest
saved version — deletes the row but only considers `p1`'s pointer for
re-pointing, leaving `p2.last_saved_version_id` dangling.  So
`last_saved_version_id` is not never-dangling across all operations. -/
theorem deleteTextVersion_dangling_cx :
    hasDanglingSavedPointer s3 = false ∧
    hasDanglingSavedPointer (deleteTextVersion s3 "p1" "v2") = true := by
  decide

/-! ### C2 -/

/-- C2: the multi-statement operations are not executed inside a
transaction, so they are not all-or-nothing.  After only the first
statement of `saveManualVersion("p1","T2","new")` has run (the state that
stays persisted if the subsequent `UPDATE` fails), the inserted version row
is already durable and the stale draft still lingers — not the pre-call
state.  Likewise, after only the first statement of `createText`, the
document points at a version row that does not exist yet. -/
theorem multiStatement_ops_not_atomic :
    (runStmts ((saveManualVersionStmts "p1" "T2" "new" "v2" 20).take 1) s2pre = .ok s2mid ∧
      s2mid ≠ s2pre ∧ getDraft s2mid "p1" = some d1c2 ∧ "v2" ∈ versionIds s2mid) ∧
    (runStmts ((createTextStmts "T" "B" none none "pX" "vX" 5).take 1) emptyDB = .ok sCmid ∧
      hasDanglingSavedPointer sCmid = true) := by
  decide

/-! ### C8 (counterexample part) -/

/-- C8 counterexample: a successful draft write at time 99 leaves the
document row — in particular its `updated_at`, still 5 — completely
unchanged, so a draft write does not update the document's last-modified
timestamp. -/
theorem upsertDraft_keeps_document_row_cx :
    upsertDraft s8 "p1" "b" none 99 = .ok { s8 with drafts := [⟨"p1", "b", 99, none⟩] } ∧
    (getText s8 "p1").map (·.updated_at) = some 5 := by
  decide

/-! ### C1 -/

/-- When the new version id is fresh and the document exists,
`saveManualVersion` succeeds and produces exactly: the version appended,
the prompt row re-pointed, the draft table cleared of the document. -/
theorem saveManualVersion_ok_shape (s : DBState) (pid title body vid : String)
    (now : Nat) (hpk : vid ∉ versionIds s) (hfk : pid ∈ promptIds s) :
    saveManualVersion s pid title body vid now =
      .ok { s with
            versions := s.versions ++ [⟨vid, pid, body, now, .manual, none⟩],
            prompts := s.prompts.map (fun p =>
              if p.id == pid then
                { p with title := title, updated_at := now,
                         last_saved_version_id := some vid }
              else p),
            drafts := s.drafts.filter (fun d => d.prompt_id != pid) } := by
  unfold saveManualVersion saveManualVersionStmts
  simp only [runStmts, insertVersionStmt, updatePromptSavedStmt, deleteDraftsStmt]
  rw [if_neg hpk, if_pos hfk]

/-- C1: after `saveManualVersion(D, t, b)` succeeds (fresh version id, a
later timestamp than every existing version of `D`), the draft for `D` is
absent, `getLatestManualVersion D` is the new version with body `b`, and
every version row that existed before — body and creation timestamp
untouched — is still returned by `listVersions D`. -/
theorem saveManualVersion_preserves_history
    (s : DBState) (pid title body vid : String) (now : Nat)
    (hfk : pid ∈ promptIds s)
    (hpk : vid ∉ versionIds s)
    (hfresh : ∀ v ∈ s.versions, v.prompt_id = pid → v.created_at < now) :
    ∃ s1, saveManualVersion s pid title body vid now = .ok s1 ∧
      getDraft s1 pid = none ∧
      (∃ v, getLatestManualVersion s1 pid = some v ∧ v.body = body ∧
        v.created_at = now) ∧
      (∀ v ∈ listVersions s pid, v ∈ listVersions s1 pid) := by
  refine ⟨_, saveManualVersion_ok_shape s pid title body vid now hpk hfk, ?_, ?_, ?_⟩
  · unfold getDraft
    rw [List.find?_eq_none]
    intro d hd
    have := (List.mem_filter.1 hd).2
    simpa using this
  · refine ⟨⟨vid, pid, body, now, .manual, none⟩, ?_, rfl, rfl⟩
    unfold getLatestManualVersion
    dsimp only
    rw [List.filter_append]
    have hsingle :
        List.filter (fun v => v.prompt_id == pid && v.kind == VKind.manual)
          [(⟨vid, pid, body, now, .manual, none⟩ : TextVersion)] =
          [⟨vid, pid, body, now, .manual, none⟩] := by simp
    rw [hsingle]
    apply latest_head
    · exact List.mem_append_right _ (by simp)
    · intro y hy hne
      rcases List.mem_append.1 hy with hyl | hyr
      · have hm := List.mem_filter.1 hyl
        have hpidy : y.prompt_id = pid := by
          have := hm.2
          simp only [Bool.and_eq_true, beq_iff_eq] at this
          exact this.1
        exact hfresh y hm.1 hpidy
      · simp only [List.mem_singleton] at hyr
        exact absurd hyr hne
  · intro v hv
    unfold listVersions at hv ⊢
    rw [List.mem_insertionSort, List.mem_filter] at hv ⊢
    exact ⟨List.mem_append_left _ hv.1, hv.2⟩

/-! ### Success-shape lemmas for `upsertDraft`, `saveManualVersion`, `createText` -/

/-- `upsertDraft` never touches any table other than `prompt_drafts`. -/
theorem upsertDraft_ok_fields (s s1 : DBState) (pid b : String) (bv : Option String)
    (now : Nat) (hok : upsertDraft s pid b bv now = .ok s1) :
    s1.prompts = s.prompts ∧ s1.versions = s.versions ∧ s1.folders = s.folders := by
  unfold upsertDraft at hok
  repeat' split at hok
  all_goals (try cases hok)
  all_goals exact ⟨rfl, rfl, rfl⟩

/-- The two success shapes of `upsertDraft`: overwrite-in-place on conflict,
plain append otherwise. -/
theorem upsertDraft_ok_drafts (s s1 : DBState) (pid b : String) (bv : Option String)
    (now : Nat) (hok : upsertDraft s pid b bv now = .ok s1) :
    (s1.drafts = s.drafts.map (fun d =>
        if d.prompt_id == pid then ⟨pid, b, now, bv⟩ else d) ∧
      s.drafts.any (fun d => d.prompt_id == pid) = true) ∨
    (s1.drafts = s.drafts ++ [⟨pid, b, now, bv⟩] ∧
      s.drafts.any (fun d => d.prompt_id == pid) = false) := by
  unfold upsertDraft at hok
  by_cases hany : s.drafts.any (fun d => d.prompt_id == pid) = true
  · rw [if_pos hany] at hok
    have h := Except.ok.inj hok
    subst h
    exact Or.inl ⟨rfl, hany⟩
  · rw [if_neg hany] at hok
    rw [Bool.not_eq_true] at hany
    split at hok
    · have h := Except.ok.inj hok
      subst h
      exact Or.inr ⟨rfl, hany⟩
    · cases hok

/-- Replacing every `pid`-keyed draft in place makes `find?` by `pid`
return the replacement. -/
theorem find?_replace (l : List TextDraft) (pid : String) (nd : TextDraft)
    (hnd : nd.prompt_id = pid)
    (h : l.any (fun d => d.prompt_id == pid) = true) :
    (l.map (fun d => if d.prompt_id == pid then nd else d)).find?
      (fun d => d.prompt_id == pid) = some nd := by
  induction l with
  | nil => simp at h
  | cons d ds ih =>
    by_cases hd : (d.prompt_id == pid) = true
    · rw [List.map_cons, if_pos hd]
      exact List.find?_cons_of_pos _ (by simp [hnd])
    · have hd' : (d.prompt_id == pid) = false := by simpa using hd
      rw [List.map_cons, if_neg hd]
      have hstep :
          List.find? (fun x => x.prompt_id == pid)
            (d :: List.map (fun x => if (x.prompt_id == pid) = true then nd else x) ds) =
          List.find? (fun x => x.prompt_id == pid)
            (List.map (fun x => if (x.prompt_id == pid) = true then nd else x) ds) :=
        List.find?_cons_of_neg _ hd
      rw [hstep]
      apply ih
      simp only [List.any_cons, hd', Bool.false_or] at h
      exact h

/-- After a successful `upsertDraft`, the draft row for the document is the
freshly written one. -/
theorem upsertDraft_ok_getDraft (s s1 : DBState) (pid b : String)
    (bv : Option String) (now : Nat) (hok : upsertDraft s pid b bv now = .ok s1) :
    getDraft s1 pid = some ⟨pid, b, now, bv⟩ := by
  rcases upsertDraft_ok_drafts s s1 pid b bv now hok with ⟨hd, hany⟩ | ⟨hd, hany⟩
  · unfold getDraft
    rw [hd]
    exact find?_replace s.drafts pid _ rfl hany
  · unfold getDraft
    rw [hd, List.find?_append]
    have hnone : s.drafts.find? (fun d => d.prompt_id == pid) = none := by
      rw [List.find?_eq_none]
      intro d hm
      have := List.any_eq_false.1 hany d hm
      simpa using this
    rw [hnone]
    simp

/-- After any successful `saveManualVersion`, the prompt table is the
pointwise update of the named document's row. -/
theorem saveManualVersion_ok_prompts (s : DBState) (pid t2 b2 vid2 : String)
    (n2 : Nat) (s2 : DBState)
    (hok : saveManualVersion s pid t2 b2 vid2 n2 = .ok s2) :
    s2.prompts = s.prompts.map (fun p =>
      if p.id == pid then
        { p with title := t2, updated_at := n2, last_saved_version_id := some vid2 }
      else p) := by
  by_cases hpk : vid2 ∈ versionIds s
  · exfalso
    unfold saveManualVersion saveManualVersionStmts at hok
    simp only [runStmts, insertVersionStmt] at hok
    rw [if_pos hpk] at hok
    cases hok
  · by_cases hfk : pid ∈ promptIds s
    · rw [saveManualVersion_ok_shape s pid t2 b2 vid2 n2 hpk hfk] at hok
      have h := Except.ok.inj hok
      subst h
      rfl
    · exfalso
      unfold saveManualVersion saveManualVersionStmts at hok
      simp only [runStmts, insertVersionStmt] at hok
      rw [if_neg hpk, if_neg hfk] at hok
      cases hok

/-- After any successful `saveManualVersion`, the draft table has been
cleared of the document's draft. -/
theorem saveManualVersion_ok_drafts (s : DBState) (pid t2 b2 vid2 : String)
    (n2 : Nat) (s2 : DBState)
    (hok : saveManualVersion s pid t2 b2 vid2 n2 = .ok s2) :
    s2.drafts = s.drafts.filter (fun d => d.prompt_id != pid) := by
  unfold saveManualVersion saveManualVersionStmts at hok
  simp only [runStmts] at hok
  cases h1 : insertVersionStmt ⟨vid2, pid, b2, n2, .manual, none⟩ s with
  | error e => rw [h1] at hok; simp at hok
  | ok sA =>
    rw [h1] at hok
    dsimp only at hok
    have hA : sA.drafts = s.drafts := by
      unfold insertVersionStmt at h1
      repeat' split at h1
      all_goals (try cases h1)
      all_goals rfl
    simp only [updatePromptSavedStmt, deleteDraftsStmt] at hok
    have h := Except.ok.inj hok
    subst h
    rw [hA]

/-- After any successful `createText`, the draft table has been cleared of
the new document id. -/
theorem createText_ok_drafts (s s1 : DBState) (title body : String)
    (folderId : Option String) (sortOrder : Option Int) (textId versionId : String)
    (now : Nat)
    (hok : createText s title body folderId sortOrder textId versionId now = .ok s1) :
    s1.drafts = s.drafts.filter (fun d => d.prompt_id != textId) := by
  unfold createText createTextStmts at hok
  simp only [runStmts] at hok
  cases h1 : insertPromptStmt
      { id := textId, title := title, created_at := now, updated_at := now,
        last_saved_version_id := some versionId, folder_id := folderId,
        sort_order := sortOrder } s with
  | error e => rw [h1] at hok; simp at hok
  | ok sA =>
    rw [h1] at hok
    dsimp only at hok
    have hA : sA.drafts = s.drafts := by
      unfold insertPromptStmt at h1
      repeat' split at h1
      all_goals (try cases h1)
      all_goals rfl
    cases h2 : insertVersionStmt
        { id := versionId, prompt_id := textId, body := body, created_at := now,
          kind := .manual, note := none } sA with
    | error e => rw [h2] at hok; simp at hok
    | ok sB =>
      rw [h2] at hok
      dsimp only at hok
      have hB : sB.drafts = sA.drafts := by
        unfold insertVersionStmt at h2
        repeat' split at h2
        all_goals (try cases h2)
        all_goals rfl
      simp only [deleteDraftsStmt] at hok
      have h := Except.ok.inj hok
      subst h
      rw [hB, hA]

/-- `deleteTextVersion` never touches the draft table. -/
theorem deleteTextVersion_drafts (s : DBState) (pid vid : String) :
    (deleteTextVersion s pid vid).drafts = s.drafts := by
  unfold deleteTextVersion
  dsimp only
  split <;> rfl

/-! ### C3 (amended part) -/

/-- The manual versions of `pid` other than the deleted row `vid` — the rows
scanned by the re-pointing query of `deleteTextVersion`. -/
def remainingManual (s : DBState) (pid vid : String) : List TextVersion :=
  (s.versions.filter (fun v => v.id != vid)).filter
    (fun v => v.prompt_id == pid && v.kind == VKind.manual)

/-- C3 amended: when `deleteTextVersion(D, v)` is called and `v` is the
version referenced by `D`'s own `last_saved_version_id`, the operation
re-points `D`, within the same call, to the most recently created remaining
manual version of `D` (or to null if none remain), and `D`'s pointer never
dangles afterwards.  The never-dangling guarantee is per-call and only for
the named document: a call naming a different document can leave this one
dangling (see the counterexample). -/
theorem deleteTextVersion_repoints_document
    (s : DBState) (pid vid : String) (p : Prompt)
    (hp : p ∈ s.prompts) (hpid : p.id = pid)
    (hnd : (promptIds s).Nodup)
    (hsaved : p.last_saved_version_id = some vid) :
    (∀ q ∈ (deleteTextVersion s pid vid).prompts, q.id = pid →
        ∀ nid, q.last_saved_version_id = some nid →
          nid ∈ versionIds (deleteTextVersion s pid vid)) ∧
    (remainingManual s pid vid = [] →
      ∃ q ∈ (deleteTextVersion s pid vid).prompts, q.id = pid ∧
        q.last_saved_version_id = none) ∧
    (∀ w ∈ remainingManual s pid vid,
      (∀ u ∈ remainingManual s pid vid, u ≠ w → u.created_at < w.created_at) →
      ∃ q ∈ (deleteTextVersion s pid vid).prompts, q.id = pid ∧
        q.last_saved_version_id = some w.id) := by
  have hfind : s.prompts.find? (fun q => q.id == pid) = some p := by
    have h := find?_id_of_nodup s.prompts p hp hnd
    rw [hpid] at h
    exact h
  have hshape : deleteTextVersion s pid vid =
      { s with
        versions := s.versions.filter (fun v => v.id != vid),
        prompts := s.prompts.map (fun q =>
          if q.id == pid then
            { q with last_saved_version_id :=
                ((List.insertionSort verRel (remainingManual s pid vid)).head?).map (·.id) }
          else q) } := by
    unfold deleteTextVersion
    dsimp only
    rw [hfind]
    dsimp only
    rw [hsaved]
    simp [remainingManual]
  refine ⟨?_, ?_, ?_⟩
  · intro q hq hqid nid hnid
    rw [hshape] at hq
    obtain ⟨r, hr, hfr⟩ := List.mem_map.1 hq
    by_cases hrid : (r.id == pid) = true
    · rw [if_pos hrid] at hfr
      rw [← hfr] at hnid
      dsimp only at hnid
      obtain ⟨w, hw, hwid⟩ := Option.map_eq_some'.1 hnid
      have hwmem : w ∈ remainingManual s pid vid :=
        (List.mem_insertionSort verRel).1 (List.mem_of_mem_head? (Option.mem_def.2 hw))
      have hwv : w ∈ s.versions.filter (fun v => v.id != vid) :=
        (List.mem_filter.1 hwmem).1
      rw [hshape]
      unfold versionIds
      dsimp only
      rw [← hwid]
      exact List.mem_map_of_mem (·.id) hwv
    · rw [if_neg hrid] at hfr
      rw [← hfr] at hqid
      exact absurd (beq_iff_eq.2 hqid) hrid
  · intro hrem
    rw [hshape]
    refine ⟨{ p with last_saved_version_id := none }, ?_, hpid, rfl⟩
    have himg :
        (fun q => if q.id == pid then
          { q with last_saved_version_id :=
              ((List.insertionSort verRel (remainingManual s pid vid)).head?).map (·.id) }
          else q) p = { p with last_saved_version_id := none } := by
      dsimp only
      rw [if_pos (beq_iff_eq.2 hpid), hrem]
      rfl
    exact himg ▸ List.mem_map_of_mem _ hp
  · intro w hw hmax
    have hhead : (List.insertionSort verRel (remainingManual s pid vid)).head? = some w :=
      latest_head _ w hw hmax
    rw [hshape]
    refine ⟨{ p with last_saved_version_id := some w.id }, ?_, hpid, rfl⟩
    have himg :
        (fun q => if q.id == pid then
          { q with last_saved_version_id :=
              ((List.insertionSort verRel (remainingManual s pid vid)).head?).map (·.id) }
          else q) p = { p with last_saved_version_id := some w.id } := by
      dsimp only
      rw [if_pos (beq_iff_eq.2 hpid), hhead]
      rfl
    exact himg ▸ List.mem_map_of_mem _ hp

/-- Witness for C3 (amended): deleting the pointed-at version `v2` of a
one-document state re-points the document to its older version `v1`. -/
theorem deleteTextVersion_repoints_document_witness :
    ∃ q ∈ (deleteTextVersion sdel3 "p1" "v2").prompts, q.id = "p1" ∧
      q.last_saved_version_id = some "v1" :=
  (deleteTextVersion_repoints_document sdel3 "p1" "v2"
      ⟨"p1", "T", 0, 0, some "v2", none, none⟩
      (by decide) (by decide) (by decide) (by decide)).2.2
    ⟨"v1", "p1", "a", 1, .manual, none⟩ (by decide) (by decide)

/-! ### C8 (amended part) -/

/-- C8 amended: a successful `upsertDraft(D, body, baseVersionId)` writes
the draft row (body, timestamp, base version) and leaves the `prompts`
table — in particular the document's `updated_at` — completely unchanged.
The document row's last-modified timestamp is updated by title changes and
saves, not by draft writes. -/
theorem draft_write_updates_draft_row_only
    (s s1 : DBState) (pid b : String) (bv : Option String) (now : Nat)
    (hok : upsertDraft s pid b bv now = .ok s1) :
    s1.prompts = s.prompts ∧ s1.versions = s.versions ∧
    getDraft s1 pid = some ⟨pid, b, now, bv⟩ ∧
    (∀ t tn, ∀ q ∈ (updateTextTitle s pid t tn).prompts, q.id = pid →
      q.updated_at = tn) ∧
    (∀ t2 b2 vid2 n2 s2, saveManualVersion s pid t2 b2 vid2 n2 = .ok s2 →
      ∀ q ∈ s2.prompts, q.id = pid → q.updated_at = n2) := by
  obtain ⟨hprompts, hversions, _⟩ := upsertDraft_ok_fields s s1 pid b bv now hok
  refine ⟨hprompts, hversions, upsertDraft_ok_getDraft s s1 pid b bv now hok, ?_, ?_⟩
  · intro t tn q hq hqid
    unfold updateTextTitle at hq
    dsimp only at hq
    obtain ⟨r, hr, hfr⟩ := List.mem_map.1 hq
    by_cases hrid : (r.id == pid) = true
    · rw [if_pos hrid] at hfr
      rw [← hfr]
    · rw [if_neg hrid] at hfr
      rw [← hfr] at hqid
      exact absurd (beq_iff_eq.2 hqid) hrid
  · intro t2 b2 vid2 n2 s2 hok2 q hq hqid
    rw [saveManualVersion_ok_prompts s pid t2 b2 vid2 n2 s2 hok2] at hq
    obtain ⟨r, hr, hfr⟩ := List.mem_map.1 hq
    by_cases hrid : (r.id == pid) = true
    · rw [if_pos hrid] at hfr
      rw [← hfr]
    · rw [if_neg hrid] at hfr
      rw [← hfr] at hqid
      exact absurd (beq_iff_eq.2 hqid) hrid

/-- Witness for C8 (amended) at a concrete state: the prompt table is
untouched by the draft write, and a title change at time 7 does set the
document's `updated_at`. -/
theorem draft_write_updates_draft_row_only_witness :
    ({ s8 with drafts := [⟨"p1", "b", 99, none⟩] } : DBState).prompts = s8.prompts ∧
    getDraft { s8 with drafts := [⟨"p1", "b", 99, none⟩] } "p1" =
      some ⟨"p1", "b", 99, none⟩ ∧
    (⟨"p1", "X", 0, 7, none, none, none⟩ : Prompt).updated_at = 7 :=
  ⟨(draft_write_updates_draft_row_only s8 { s8 with drafts := [⟨"p1", "b", 99, none⟩] }
      "p1" "b" none 99 (by decide)).1,
   (draft_write_updates_draft_row_only s8 { s8 with drafts := [⟨"p1", "b", 99, none⟩] }
      "p1" "b" none 99 (by decide)).2.2.1,
   (draft_write_updates_draft_row_only s8 { s8 with drafts := [⟨"p1", "b", 99, none⟩] }
      "p1" "b" none 99 (by decide)).2.2.2.1
     "X" 7 ⟨"p1", "X", 0, 7, none, none, none⟩ (by decide) (by decide)⟩

/-! ### C4 -/

/-- Overwriting the `pid`-keyed rows in place preserves the key list. -/
theorem map_key_replace (l : List TextDraft) (pid : String) (nd : TextDraft)
    (hnd : nd.prompt_id = pid) :
    (l.map (fun d => if d.prompt_id == pid then nd else d)).map (·.prompt_id) =
      l.map (·.prompt_id) := by
  rw [List.map_map]
  apply List.map_congr_left
  intro d _
  by_cases hd : (d.prompt_id == pid) = true
  · simp [Function.comp, hd, hnd, beq_iff_eq.1 hd]
  · simp [Function.comp, hd]

/-- Appending a draft with a key absent from the table keeps keys distinct. -/
theorem nodup_append_key (l : List TextDraft) (pid : String) (nd : TextDraft)
    (hnd : nd.prompt_id = pid)
    (hany : l.any (fun d => d.prompt_id == pid) = false)
    (h : (l.map (·.prompt_id)).Nodup) :
    ((l ++ [nd]).map (·.prompt_id)).Nodup := by
  rw [List.map_append]
  refine List.Nodup.append h (by simp) ?_
  intro x hx hx2
  simp only [List.map_cons, List.map_nil, List.mem_singleton] at hx2
  obtain ⟨d, hdm, hdx⟩ := List.mem_map.1 hx
  have := List.any_eq_false.1 hany d hdm
  rw [hx2, hnd] at hdx
  simp [hdx] at this

/-- Both success shapes of `upsertDraft` preserve distinctness of the draft
table's keys; every other operation only filters or keeps the draft table.
So every reachable state has at most one draft row per document. -/
theorem reachable_draftKeysNodup {s : DBState} (h : Reachable s) :
    draftKeysNodup s := by
  induction h with
  | empty => simp [draftKeysNodup]
  | createText hr hok ih =>
    unfold draftKeysNodup at *
    rw [createText_ok_drafts _ _ _ _ _ _ _ _ _ hok]
    exact ih.sublist ((List.filter_sublist _).map _)
  | saveManualVersion hr hok ih =>
    unfold draftKeysNodup at *
    rw [saveManualVersion_ok_drafts _ _ _ _ _ _ _ hok]
    exact ih.sublist ((List.filter_sublist _).map _)
  | upsertDraft hr hok ih =>
    rename_i sP s1P pidP bodyP bvP nowP
    unfold draftKeysNodup at *
    rcases upsertDraft_ok_drafts _ _ _ _ _ _ hok with ⟨hd, hany⟩ | ⟨hd, hany⟩
    · rw [hd, map_key_replace sP.drafts pidP ⟨pidP, bodyP, nowP, bvP⟩ rfl]
      exact ih
    · rw [hd]
      exact nodup_append_key sP.drafts pidP ⟨pidP, bodyP, nowP, bvP⟩ rfl hany ih
  | discardDraft hr ih =>
    unfold draftKeysNodup at *
    exact ih.sublist ((List.filter_sublist _).map _)
  | deleteText hr ih =>
    unfold draftKeysNodup at *
    exact ih.sublist ((List.filter_sublist _).map _)
  | deleteTextVersion hr ih =>
    unfold draftKeysNodup at *
    rw [deleteTextVersion_drafts]
    exact ih
  | updateTextTitle hr ih => exact ih
  | createFolder hr ih => exact ih
  | updateFolderName hr ih => exact ih
  | moveFolder hr ih => exact ih
  | setFolderOrder hr ih => exact ih
  | deleteFolder hr ih => exact ih
  | moveTextToFolder hr ih => exact ih
  | setTextOrder hr ih => exact ih

/-- Overwriting the `pid`-keyed rows in place does not change how many
rows carry the key. -/
theorem length_filter_map_replace (l : List TextDraft) (pid : String) (nd : TextDraft)
    (hnd : nd.prompt_id = pid) :
    ((l.map (fun d => if d.prompt_id == pid then nd else d)).filter
      (fun d => d.prompt_id == pid)).length =
      (l.filter (fun d => d.prompt_id == pid)).length := by
  induction l with
  | nil => rfl
  | cons d ds ih =>
    by_cases hd : (d.prompt_id == pid) = true
    · have hdp : d.prompt_id = pid := beq_iff_eq.1 hd
      simp only [beq_iff_eq] at ih
      simp [hdp, hnd, ih]
    · have hdp : ¬ d.prompt_id = pid := by simpa using hd
      simp only [beq_iff_eq] at ih
      simp [hdp, ih]

/-- With distinct keys, a present key identifies exactly one row. -/
theorem length_filter_key_eq_one (l : List TextDraft) (pid : String)
    (hnd : (l.map (·.prompt_id)).Nodup)
    (h : l.any (fun d => d.prompt_id == pid) = true) :
    (l.filter (fun d => d.prompt_id == pid)).length = 1 := by
  induction l with
  | nil => simp at h
  | cons d ds ih =>
    rw [List.map_cons, List.nodup_cons] at hnd
    by_cases hd : (d.prompt_id == pid) = true
    · have hds : ds.filter (fun x => x.prompt_id == pid) = [] := by
        rw [List.filter_eq_nil_iff]
        intro x hx hpx
        apply hnd.1
        rw [beq_iff_eq.1 hd, ← beq_iff_eq.1 hpx]
        exact List.mem_map_of_mem (·.prompt_id) hx
      simp [hd, hds]
    · have hd' : (d.prompt_id == pid) = false := by simpa using hd
      simp only [List.filter_cons, hd']
      rw [if_neg (by simp)]
      apply ih hnd.2
      simp only [List.any_cons, hd', Bool.false_or] at h
      exact h

/-- C4: in every reachable state the draft table has at most one row per
document (distinct primary keys); two successive `upsertDraft` calls for
`D` succeed and leave exactly one draft row for `D`, carrying the second
body; and neither call creates, alters, or deletes any version row. -/
theorem upsertDraft_single_slot
    (s : DBState) (hs : Reachable s) (pid b1 b2 : String) (v : Option String)
    (t1 t2 : Nat) (hpid : pid ∈ promptIds s) :
    draftKeysNodup s ∧
    ∃ s1 s2, upsertDraft s pid b1 v t1 = .ok s1 ∧
      upsertDraft s1 pid b2 v t2 = .ok s2 ∧
      (s2.drafts.filter (fun d => d.prompt_id == pid)).length = 1 ∧
      (∀ d ∈ s2.drafts, d.prompt_id = pid → d = ⟨pid, b2, t2, v⟩) ∧
      s1.versions = s.versions ∧ s2.versions = s.versions := by
  have hnd := reachable_draftKeysNodup hs
  have h1 : ∃ s1, upsertDraft s pid b1 v t1 = .ok s1 := by
    unfold upsertDraft
    by_cases hany : s.drafts.any (fun d => d.prompt_id == pid) = true
    · rw [if_pos hany]; exact ⟨_, rfl⟩
    · rw [if_neg hany, if_pos hpid]; exact ⟨_, rfl⟩
  obtain ⟨s1, h1⟩ := h1
  have hs1 : Reachable s1 := Reachable.upsertDraft hs h1
  have hnd1 := reachable_draftKeysNodup hs1
  have hget1 := upsertDraft_ok_getDraft s s1 pid b1 v t1 h1
  have hany1 : s1.drafts.any (fun d => d.prompt_id == pid) = true := by
    unfold getDraft at hget1
    exact List.any_eq_true.2
      ⟨⟨pid, b1, t1, v⟩, List.mem_of_find?_eq_some hget1, by simp⟩
  have h2 : upsertDraft s1 pid b2 v t2 =
      .ok { s1 with drafts := s1.drafts.map (fun d =>
        if d.prompt_id == pid then ⟨pid, b2, t2, v⟩ else d) } := by
    unfold upsertDraft
    rw [if_pos hany1]
  refine ⟨hnd, s1, _, h1, h2, ?_, ?_, ?_, ?_⟩
  · show ((s1.drafts.map _).filter _).length = 1
    rw [length_filter_map_replace s1.drafts pid ⟨pid, b2, t2, v⟩ rfl]
    exact length_filter_key_eq_one s1.drafts pid hnd1 hany1
  · intro d hd hdpid
    obtain ⟨r, hr, hfr⟩ := List.mem_map.1 hd
    by_cases hrid : (r.prompt_id == pid) = true
    · rw [if_pos hrid] at hfr
      exact hfr.symm
    · rw [if_neg hrid] at hfr
      rw [← hfr] at hdpid
      exact absurd (beq_iff_eq.2 hdpid) hrid
  · exact (upsertDraft_ok_fields s s1 pid b1 v t1 h1).2.1
  · exact (upsertDraft_ok_fields s s1 pid b1 v t1 h1).2.1

/-- Witness for C4 on the state created by `createText` from an empty
database. -/
theorem upsertDraft_single_slot_witness :
    draftKeysNodup sC4 ∧
    ∃ s1 s2, upsertDraft sC4 "p1" "x" none 4 = .ok s1 ∧
      upsertDraft s1 "p1" "y" none 5 = .ok s2 ∧
      (s2.drafts.filter (fun d => d.prompt_id == "p1")).length = 1 ∧
      (∀ d ∈ s2.drafts, d.prompt_id = "p1" → d = ⟨"p1", "y", 5, none⟩) ∧
      s1.versions = sC4.versions ∧ s2.versions = sC4.versions :=
  upsertDraft_single_slot sC4
    (@Reachable.createText emptyDB sC4 "T" "B" none none "p1" "v1" 3
      Reachable.empty (by decide))
    "p1" "x" "y" none 4 5 (by decide)

/-- Witness for C1 at a concrete one-document state. -/
theorem saveManualVersion_preserves_history_witness :
    ∃ s1, saveManualVersion s1w "p1" "T2" "B2" "v2" 2 = .ok s1 ∧
      getDraft s1 "p1" = none ∧
      (∃ v, getLatestManualVersion s1 "p1" = some v ∧ v.body = "B2" ∧
        v.created_at = 2) ∧
      (∀ v ∈ listVersions s1w "p1", v ∈ listVersions s1 "p1") :=
  saveManualVersion_preserves_history s1w "p1" "T2" "B2" "v2" 2
    (by decide) (by decide) (by decide)

end TextDB

/-!
Shallow embedding of the Markdown renderer (`src/markdown/markdown.js`).

Strings are processed as `List Char`.  Each JavaScript
`String.replace(regex, ...)` pass becomes a left-to-right scanner that
reproduces the regex's semantics (leftmost match, lazy/greedy quantifiers,
look-around where present); scanners recurse on an explicit fuel argument
(always called with fuel > remaining input length) so every definition
reduces inside the kernel.  Character-class notes: JavaScript `\s` is
modelled by `jsWhitespace`, `\d` by `Char.isDigit`, `\w` (for `\b`) by
`isWordChar`; `toLowerCase` only ever meets ASCII input here (fence info
strings) and is modelled by `lowerChar`.
-/

namespace Markdown

/-- JavaScript `\s` (the code points relevant after the pipeline's own
space normalisation). -/
def jsWhitespace (c : Char) : Bool :=
  let n := c.toNat
  n == 9 || n == 10 || n == 11 || n == 12 || n == 13 || n == 32 ||
    n == 0xa0 || n == 0x1680 || (decide (0x2000 ≤ n) && decide (n ≤ 0x200a)) ||
    n == 0x2028 || n == 0x2029 || n == 0x202f || n == 0x205f || n == 0x3000 ||
    n == 0xfeff

/-- JavaScript `String.prototype.trim`. -/
def jsTrim (l : List Char) : List Char :=
  ((l.dropWhile jsWhitespace).reverse.dropWhile jsWhitespace).reverse

/-- ASCII lower-casing (`toLowerCase` on the ASCII data this code meets). -/
def lowerChar (c : Char) : Char :=
  if 'A' ≤ c ∧ c ≤ 'Z' then Char.ofNat (c.toNat + 32) else c

/-- JavaScript `\w`, for `\b` boundaries. -/
def isWordChar (c : Char) : Bool :=
  (('a' ≤ c && c ≤ 'z') || ('A' ≤ c && c ≤ 'Z') || c.isDigit || c == '_')

/-- Case-insensitive (ASCII) literal prefix test. -/
def ciIsPrefixOf (pat cs : List Char) : Bool :=
  (pat.map lowerChar).isPrefixOf (cs.map lowerChar)

/-! ### Step 0: strip think-tags
`text.replace(/<think(?:ing)?>[\s\S]*?(?:<\/think(?:ing)?>|$)/gi, '')` -/

/-- Match `<think>`/`<thinking>` (case-insensitive) at the head; the
greedy optional `(?:ing)?` makes `<thinking>` win over `<think>`. -/
def matchOpenThink (cs : List Char) : Option (List Char) :=
  if ciIsPrefixOf "<thinking>".toList cs then some (cs.drop 10)
  else if ciIsPrefixOf "<think>".toList cs then some (cs.drop 7)
  else none

def matchCloseThink (cs : List Char) : Option (List Char) :=
  if ciIsPrefixOf "</thinking>".toList cs then some (cs.drop 11)
  else if ciIsPrefixOf "</think>".toList cs then some (cs.drop 8)
  else none

/-- Lazy `[\s\S]*?` up to the earliest close tag, or to `$` if none. -/
def skipToCloseThink : Nat → List Char → List Char
  | 0, _ => []
  | _, [] => []
  | f + 1, c :: rest =>
    match matchCloseThink (c :: rest) with
    | some after => after
    | none => skipToCloseThink f rest

def stripThinkGo : Nat → List Char → List Char
  | 0, cs => cs
  | _, [] => []
  | f + 1, c :: rest =>
    match matchOpenThink (c :: rest) with
    | some after => stripThinkGo f (skipToCloseThink (after.length + 1) after)
    | none => c :: stripThinkGo f rest

def stripThink (cs : List Char) : List Char := stripThinkGo (cs.length + 1) cs

/-- `text.replace(/[   ]/g, ' ')`. -/
def normalizeExoticSpaces (cs : List Char) : List Char :=
  cs.map (fun c =>
    if c.toNat == 0xa0 || c.toNat == 0x202f || c.toNat == 0x2007 then ' ' else c)

/-! ### `balanceStreamingCodeFence` (markdown.js:241-271) -/

/-- `md.split(/\r?\n/)`. -/
def splitLinesCRLF : Nat → List Char → List Char → List (List Char)
  | 0, acc, _ => [acc.reverse]
  | _, acc, [] => [acc.reverse]
  | f + 1, acc, '\r' :: '\n' :: rest => acc.reverse :: splitLinesCRLF f [] rest
  | f + 1, acc, '\n' :: rest => acc.reverse :: splitLinesCRLF f [] rest
  | f + 1, acc, c :: rest => splitLinesCRLF f (c :: acc) rest

/-- `/^\s*([`~]{3,})([^\s]*)?.*$/` — a fence opener; the captured run may
mix backticks and tildes, its first character and length are recorded. -/
def fenceOpen? (line : List Char) : Option (Char × Nat) :=
  let rest := line.dropWhile jsWhitespace
  match rest.head? with
  | some c =>
    if c == '`' || c == '~' then
      let run := rest.takeWhile (fun x => x == '`' || x == '~')
      if run.length ≥ 3 then some (c, run.length) else none
    else none
  | none => none

/-- `^\s*(C{n,})\s*$` for the recorded fence character and length. -/
def fenceClose (ch : Char) (len : Nat) (line : List Char) : Bool :=
  let rest := line.dropWhile jsWhitespace
  let run := rest.takeWhile (fun x => x == ch)
  decide (run.length ≥ len) && (rest.drop run.length).all jsWhitespace

def scanFence : List (List Char) → Option (Char × Nat) → Option (Char × Nat)
  | [], st => st
  | line :: rest, none =>
    match fenceOpen? line with
    | some o => scanFence rest (some o)
    | none => scanFence rest none
  | line :: rest, some o =>
    if fenceClose o.1 o.2 line then scanFence rest none
    else scanFence rest (some o)

def balanceStreamingCodeFence (cs : List Char) : List Char :=
  match scanFence (splitLinesCRLF (cs.length + 1) [] cs) none with
  | none => cs
  | some (ch, len) =>
    let virtual := List.replicate len ch
    if cs.getLast? == some '\n' then cs ++ virtual
    else cs ++ '\n' :: virtual

/-! ### Step 1: normalize line endings -/

def normalizeNewlines : Nat → List Char → List Char
  | 0, cs => cs
  | _, [] => []
  | f + 1, '\r' :: '\n' :: rest => '\n' :: normalizeNewlines f rest
  | f + 1, '\r' :: rest => '\n' :: normalizeNewlines f rest
  | f + 1, c :: rest => c :: normalizeNewlines f rest

/-! ### Step 2: extract fenced code blocks
`tmp.replace(/```([^\n]*)\n([\s\S]*?)```/g, ...)` -/

structure CodeBlock where
  lang : List Char
  code : List Char
deriving DecidableEq

/-- Split on `'\n'` (after newline normalisation). -/
def splitNL : Nat → List Char → List Char → List (List Char)
  | 0, acc, _ => [acc.reverse]
  | _, acc, [] => [acc.reverse]
  | f + 1, acc, '\n' :: rest => acc.reverse :: splitNL f [] rest
  | f + 1, acc, c :: rest => splitNL f (c :: acc) rest

def lines (cs : List Char) : List (List Char) := splitNL (cs.length + 1) [] cs

def joinNL (ls : List (List Char)) : List Char := List.intercalate ['\n'] ls

/-- Drop trailing all-whitespace lines
(`while (lines.length > 0 && /^\s*$/.test(lines[lines.length-1])) lines.pop()`). -/
def trimTrailingBlankLines (ls : List (List Char)) : List (List Char) :=
  (ls.reverse.dropWhile (fun l => l.all jsWhitespace)).reverse

/-- Lazy search for the earliest closing triple backtick. -/
def findTripleTick : Nat → List Char → List Char → Option (List Char × List Char)
  | 0, _, _ => none
  | _, acc, '`' :: '`' :: '`' :: rest => some (acc.reverse, rest)
  | f + 1, acc, c :: rest => findTripleTick f (c :: acc) rest
  | _, _, [] => none

/-- Try to match a fenced block at the head: exactly three backticks, an
info string up to the newline, then the lazy body up to the next three
backticks. -/
def matchTickFence (cs : List Char) : Option (List Char × List Char × List Char) :=
  match cs with
  | '`' :: '`' :: '`' :: rest =>
    let lang := rest.takeWhile (fun c => c ≠ '\n')
    match rest.drop lang.length with
    | '\n' :: rest2 =>
      match findTripleTick (rest2.length + 1) [] rest2 with
      | some (code, after) => some (lang, code, after)
      | none => none
    | _ => none
  | _ => none

def natDigits (n : Nat) : List Char := (toString n).toList

def codeBlockPlaceholder (idx : Nat) : List Char :=
  "@@CODEBLOCK".toList ++ natDigits idx ++ "@@".toList

def extractGo : Nat → List Char → List CodeBlock → List Char × List CodeBlock
  | 0, cs, acc => (cs, acc)
  | _, [], acc => ([], acc)
  | f + 1, c :: rest, acc =>
    match matchTickFence (c :: rest) with
    | some (lang, code, after) =>
      let cleaned :=
        joinNL (trimTrailingBlankLines (lines (normalizeNewlines (code.length + 1) code)))
      let blk : CodeBlock := ⟨jsTrim lang, cleaned⟩
      let res := extractGo f after (acc ++ [blk])
      (codeBlockPlaceholder acc.length ++ res.1, res.2)
    | none =>
      let res := extractGo f rest acc
      (c :: res.1, res.2)

def extractCodeBlocks (cs : List Char) : List Char × List CodeBlock :=
  extractGo (cs.length + 1) cs []

/-! ### Step 3: HTML escaping -/

def escapeHtml : List Char → List Char
  | [] => []
  | c :: rest =>
    (if c == '&' then "&amp;".toList
     else if c == '<' then "&lt;".toList
     else if c == '>' then "&gt;".toList
     else [c]) ++ escapeHtml rest

def escapeAttr (cs : List Char) : List Char :=
  (escapeHtml cs).foldr
    (fun c acc =>
      (if c == '"' then "&quot;".toList
       else if c == Char.ofNat 39 then "&#39;".toList
       else [c]) ++ acc) []

/-! ### Step 4: headings
Four whole-line passes `/^#{k} (.+)$/gm`, `k = 4,3,2,1`.  Because each
pass only rewrites complete lines and its output starts with `<`, the four
passes equal one per-line cascade tested from four hashes down to one. -/

def headingLine (line : List Char) : List Char :=
  let wrap (k : Nat) (content : List Char) : List Char :=
    ("<h" ++ toString k ++ " class=\"md-heading md-heading--" ++ toString k ++
      "\">").toList ++ content ++ ("</h" ++ toString k ++ ">").toList
  if "#### ".toList.isPrefixOf line ∧ line.drop 5 ≠ [] then wrap 4 (line.drop 5)
  else if "### ".toList.isPrefixOf line ∧ line.drop 4 ≠ [] then wrap 3 (line.drop 4)
  else if "## ".toList.isPrefixOf line ∧ line.drop 3 ≠ [] then wrap 2 (line.drop 3)
  else if "# ".toList.isPrefixOf line ∧ line.drop 2 ≠ [] then wrap 1 (line.drop 2)
  else line

/-! ### Step 4.1: horizontal rules `/^(?:-{3,}|\*{3,}|_{3,})\s*$/gm` -/

def hrLine (line : List Char) : List Char :=
  match line.head? with
  | some c =>
    if c == '-' || c == '*' || c == '_' then
      let run := line.takeWhile (fun x => x == c)
      if decide (run.length ≥ 3) && (line.drop run.length).all jsWhitespace then
        "<hr class=\"md-hr\">".toList
      else line
    else line
  | none => line

/-! ### Steps 4.2/4.3/4.5: line-run blocks
Each of the three regexes matches a maximal run of consecutive matching
lines starting at the beginning of a line (`(^|\n)` anchored), and rewrites
the run as a whole. -/

def groupLines (pred : List Char → Bool) (wrap : List (List Char) → List Char) :
    Nat → List (List Char) → List (List Char)
  | 0, ls => ls
  | _, [] => []
  | f + 1, l :: rest =>
    if pred l then
      wrap (l :: rest.takeWhile pred) :: groupLines pred wrap f (rest.dropWhile pred)
    else l :: groupLines pred wrap f rest

def isSpaceTab (c : Char) : Bool := c == ' ' || c == '\t'

/-- `[ \t]*\d+\. .+` -/
def olLine? (line : List Char) : Bool :=
  let rest := line.dropWhile isSpaceTab
  let digits := rest.takeWhile (·.isDigit)
  decide (digits ≠ []) &&
    match rest.drop digits.length with
    | '.' :: ' ' :: r => decide (r ≠ [])
    | _ => false

/-- `line.replace(/^[ \t]*\d+\.\s+/, '').trim()` -/
def olStrip (line : List Char) : List Char :=
  let rest := line.dropWhile isSpaceTab
  let digits := rest.takeWhile (·.isDigit)
  if digits ≠ [] then
    match rest.drop digits.length with
    | '.' :: r2 =>
      if (r2.head?.map jsWhitespace).getD false then jsTrim (r2.dropWhile jsWhitespace)
      else jsTrim line
    | _ => jsTrim line
  else jsTrim line

def listItems (strip : List Char → List Char) (ls : List (List Char)) :
    List (List Char) :=
  (ls.map strip).filter (fun it => it ≠ [])

def olWrap (ls : List (List Char)) : List Char :=
  let items := listItems olStrip ls
  if items = [] then joinNL ls
  else
    "<ol class=\"md-list md-list--ordered\">".toList ++
      (items.map (fun it =>
        "<li class=\"md-list__item\">".toList ++ it ++ "</li>".toList)).flatten ++
      "</ol>".toList

/-- `[ \t]*> .+` — note `>` was already escaped to `&gt;` by step 3, so on
pipeline input this stage never fires; it is embedded faithfully anyway. -/
def bqLine? (line : List Char) : Bool :=
  match line.dropWhile isSpaceTab with
  | '>' :: ' ' :: r => decide (r ≠ [])
  | _ => false

/-- `line.replace(/^[ \t]*>\s*/, '').trim()` -/
def bqStrip (line : List Char) : List Char :=
  match line.dropWhile isSpaceTab with
  | '>' :: r => jsTrim (r.dropWhile jsWhitespace)
  | _ => jsTrim line

def bqWrap (ls : List (List Char)) : List Char :=
  "<blockquote class=\"md-blockquote\">".toList ++
    joinNL (ls.map bqStrip) ++ "</blockquote>".toList

/-- `[ \t]*[-*] .+` -/
def ulLine? (line : List Char) : Bool :=
  match line.dropWhile isSpaceTab with
  | c :: ' ' :: r => (c == '-' || c == '*') && decide (r ≠ [])
  | _ => false

/-- `line.replace(/^[ \t]*[-*]\s+/, '').trim()` -/
def ulStrip (line : List Char) : List Char :=
  match line.dropWhile isSpaceTab with
  | c :: r =>
    if (c == '-' || c == '*') && (r.head?.map jsWhitespace).getD false then
      jsTrim (r.dropWhile jsWhitespace)
    else jsTrim line
  | _ => jsTrim line

def ulWrap (ls : List (List Char)) : List Char :=
  let items := listItems ulStrip ls
  if items = [] then joinNL ls
  else
    "<ul class=\"md-list md-list--unordered\">".toList ++
      (items.map (fun it =>
        "<li class=\"md-list__item\">".toList ++ it ++ "</li>".toList)).flatten ++
      "</ul>".toList

/-! ### Step 4.6: GitHub-style pipe tables

The block regex requires: a line starting with `|`; a newline-terminated
separator line of the shape `\|\s*[:\-]+(?:\s*\|\s*[:\-]+)+\s*\|?\s*`;
then any run of following lines starting with `|`, each ending with a
newline or the end of input.  (The `\s*` between the header line and the
separator can also absorb blank lines, but the callback rejects any such
match — `seps` would come from an empty line and fail the column check —
so the block is emitted unchanged either way, which is what this embedding
does by not forming a block there.)  The callback logic below follows
markdown.js:121-167 line by line. -/

/-- After the first `[:\-]+` run: `(?:\s*\|\s*[:\-]+)+\s*\|?\s*` to the end
of the line.  `seen` records whether at least one further column run has
been consumed. -/
def tableSepTail : Nat → Bool → List Char → Bool
  | 0, _, _ => false
  | f + 1, seen, cs =>
    let cs1 := cs.dropWhile jsWhitespace
    match cs1 with
    | [] => seen
    | '|' :: r2 =>
      let r2' := r2.dropWhile jsWhitespace
      let run := r2'.takeWhile (fun c => c == ':' || c == '-')
      if run ≠ [] then tableSepTail f true (r2'.drop run.length)
      else seen && decide (r2' = [])
    | _ => false

/-- The shape test for the separator line. -/
def tableSepLine? (line : List Char) : Bool :=
  match line with
  | '|' :: r =>
    let r1 := r.dropWhile jsWhitespace
    let run := r1.takeWhile (fun c => c == ':' || c == '-')
    decide (run ≠ []) && tableSepTail (line.length + 1) false (r1.drop run.length)
  | _ => false

def splitOnPipe : Nat → List Char → List Char → List (List Char)
  | 0, acc, _ => [acc.reverse]
  | _, acc, [] => [acc.reverse]
  | f + 1, acc, '|' :: rest => acc.reverse :: splitOnPipe f [] rest
  | f + 1, acc, c :: rest => splitOnPipe f (c :: acc) rest

/-- `line.replace(/^\||\|$/g, '').split('|').map(s => s.trim())`. -/
def splitRow (line : List Char) : List (List Char) :=
  let l1 := match line with | '|' :: r => r | _ => line
  let l2 := if l1.getLast? == some '|' then l1.dropLast else l1
  (splitOnPipe (l2.length + 1) [] l2).map jsTrim

/-- Column alignment from a separator cell (leading/trailing colon). -/
def alignOf (seg : List Char) : List Char :=
  let s := seg.filter (fun c => !jsWhitespace c)
  if s.head? == some ':' && s.getLast? == some ':' then "center".toList
  else if s.getLast? == some ':' then "right".toList
  else "left".toList

def alignClass (aligns : List (List Char)) (i : Nat) : List Char :=
  "md-align-".toList ++ aligns.getD i "left".toList

/-- The table callback: `none` means the block fails validation and is
left as literal text. -/
def renderTable (blockLines : List (List Char)) : Option (List Char) :=
  match blockLines with
  | header :: sep :: dataLs =>
    let headers := splitRow header
    let seps := splitRow sep
    if decide (headers.length < 2) || decide (seps.length < 2) then none
    else if !(seps.all (fun s =>
        decide (s ≠ []) && s.all (fun c => c == ' ' || c == ':' || c == '-') &&
          s.any (fun c => c == '-'))) then none
    else
      let aligns := seps.map alignOf
      let bodyLines := dataLs.filter (fun l => (jsTrim l).head? == some '|')
      let ths := (headers.enum.map (fun ic =>
        "<th class=\"md-table__head-cell ".toList ++ alignClass aligns ic.1 ++
          "\">".toList ++ ic.2 ++ "</th>".toList)).flatten
      let rows := (bodyLines.map (fun line =>
        let cells := splitRow line
        "<tr class=\"md-table__row\">".toList ++
          (cells.enum.map (fun ic =>
            "<td class=\"md-table__cell ".toList ++ alignClass aligns ic.1 ++
              "\">".toList ++ ic.2 ++ "</td>".toList)).flatten ++
          "</tr>".toList)).flatten
      some ("<table class=\"md-table\"><thead><tr class=\"md-table__row md-table__row--head\">".toList
        ++ ths ++ "</tr></thead><tbody>".toList ++ rows ++ "</tbody></table>".toList)
  | _ => none

/-- Scan the line list for table blocks.  A line is newline-terminated
exactly when it is not the last element of the split (the split keeps a
final empty line when the text ends with a newline), which encodes the
regex's requirement that the separator — and every block line except
possibly the last — ends with `\n`.  (As with the header/separator gap,
the regex's trailing `\s*` could also absorb blank lines between data
rows; no claim involves such inputs and this embedding keeps the plain
line-by-line reading.) -/
def tableStage : Nat → List (List Char) → List (List Char)
  | 0, ls => ls
  | _, [] => []
  | f + 1, l :: rest =>
    if l.head? == some '|' then
      match rest with
      | sep :: rest2 =>
        if tableSepLine? sep ∧ rest2 ≠ [] then
          let dataRun := rest2.takeWhile (fun x => x.head? == some '|')
          match renderTable (l :: sep :: dataRun) with
          | some t => t :: tableStage f (rest2.drop dataRun.length)
          | none => l :: sep :: (dataRun ++ tableStage f (rest2.drop dataRun.length))
        else l :: tableStage f rest
      | [] => [l]
    else l :: tableStage f rest

/-! ### Step 5: `applyInline` (markdown.js:21-44)
Inline code spans, then bold, then italics are cut out into indexed
placeholders, and the placeholders are substituted back in the same
order. -/

/-- `/`([^`]+?)`/g` — an inline code span: a backtick, at least one
non-backtick, the next backtick. -/
def codeSpanGo : Nat → List Char → List (List Char) → List Char × List (List Char)
  | 0, cs, runs => (cs, runs)
  | _, [], runs => ([], runs)
  | f + 1, c :: rest, runs =>
    if c == '`' then
      let content := rest.takeWhile (fun x => x ≠ '`')
      if content ≠ [] ∧ (rest.drop content.length).head? = some '`' then
        let res := codeSpanGo f (rest.drop (content.length + 1)) (runs ++ [content])
        ("@@CODEINLINE".toList ++ natDigits runs.length ++ "@@".toList ++ res.1, res.2)
      else
        let res := codeSpanGo f rest runs
        (c :: res.1, res.2)
    else
      let res := codeSpanGo f rest runs
      (c :: res.1, res.2)

/-- Lazy `([\s\S]+?)\*\*`: the earliest `**` preceded by at least one
content character. -/
def findStrongClose : Nat → List Char → List Char → Option (List Char × List Char)
  | 0, _, _ => none
  | _, _, [] => none
  | f + 1, acc, c :: rest =>
    if c == '*' ∧ rest.head? = some '*' ∧ acc ≠ [] then
      some (acc.reverse, rest.drop 1)
    else findStrongClose f (c :: acc) rest

/-- `/\*\*([\s\S]+?)\*\*/g` -/
def strongGo : Nat → List Char → List (List Char) → List Char × List (List Char)
  | 0, cs, runs => (cs, runs)
  | _, [], runs => ([], runs)
  | f + 1, c :: rest, runs =>
    if c == '*' ∧ rest.head? = some '*' then
      match findStrongClose ((rest.drop 1).length + 1) [] (rest.drop 1) with
      | some (content, after) =>
        let res := strongGo f after (runs ++ [content])
        ("@@STRONG".toList ++ natDigits runs.length ++ "@@".toList ++ res.1, res.2)
      | none =>
        let res := strongGo f rest runs
        (c :: res.1, res.2)
    else
      let res := strongGo f rest runs
      (c :: res.1, res.2)

/-- Lazy `([\s\S]+?)\*(?!\*)`: the earliest closing `*` not followed by
another `*`, with at least one content character before it. -/
def findEmClose : Nat → List Char → List Char → Option (List Char × List Char)
  | 0, _, _ => none
  | _, _, [] => none
  | f + 1, acc, c :: rest =>
    if c == '*' ∧ rest.head? ≠ some '*' ∧ acc ≠ [] then some (acc.reverse, rest)
    else findEmClose f (c :: acc) rest

/-- `/(?<!\*)\*([\s\S]+?)\*(?!\*)/g` — `prev` is the character of the
original string just before the scan position, for the look-behind. -/
def emGo : Nat → Option Char → List Char → List (List Char) →
    List Char × List (List Char)
  | 0, _, cs, runs => (cs, runs)
  | _, _, [], runs => ([], runs)
  | f + 1, prev, c :: rest, runs =>
    if c == '*' ∧ prev ≠ some '*' then
      match findEmClose (rest.length + 1) [] rest with
      | some (content, after) =>
        let res := emGo f (some '*') after (runs ++ [content])
        ("@@EM".toList ++ natDigits runs.length ++ "@@".toList ++ res.1, res.2)
      | none =>
        let res := emGo f (some '*') rest runs
        (c :: res.1, res.2)
    else
      let res := emGo f (some c) rest runs
      (c :: res.1, res.2)

def digitsToNat (ds : List Char) : Nat :=
  ds.foldl (fun n c => n * 10 + (c.toNat - 48)) 0

/-- Substitute `tag(\d+)@@` placeholders back; a reference past the end of
`runs` inserts the text `undefined`, exactly as the JavaScript template
literal would stringify `runs[idx]`. -/
def restoreGo (tag : List Char) (runs : List (List Char))
    (wrapL wrapR : List Char) : Nat → List Char → List Char
  | 0, cs => cs
  | _, [] => []
  | f + 1, c :: rest =>
    if tag.isPrefixOf (c :: rest) then
      let after := (c :: rest).drop tag.length
      let digits := after.takeWhile (·.isDigit)
      if digits ≠ [] ∧ "@@".toList.isPrefixOf (after.drop digits.length) then
        wrapL ++ runs.getD (digitsToNat digits) "undefined".toList ++ wrapR ++
          restoreGo tag runs wrapL wrapR f ((after.drop digits.length).drop 2)
      else c :: restoreGo tag runs wrapL wrapR f rest
    else c :: restoreGo tag runs wrapL wrapR f rest

def applyInline (source : List Char) : List Char :=
  let r1 := codeSpanGo (source.length + 1) source []
  let r2 := strongGo (r1.1.length + 1) r1.1 []
  let r3 := emGo (r2.1.length + 1) none r2.1 []
  let t1 := restoreGo "@@STRONG".toList r2.2 "<b>".toList "</b>".toList
    (r3.1.length + 1) r3.1
  let t2 := restoreGo "@@EM".toList r3.2 "<i>".toList "</i>".toList
    (t1.length + 1) t1
  restoreGo "@@CODEINLINE".toList r1.2 "<code>".toList "</code>".toList
    (t2.length + 1) t2

/-! ### Step 5.5: links (markdown.js:173-189) -/

/-- `safeLink`: trim, then accept `http(s)://`, `mailto:`, `tel:` (all
case-insensitive) or a leading `/` or `#`; anything else yields `''`. -/
def safeLink (hrefRaw : List Char) : List Char :=
  let href := jsTrim hrefRaw
  if href = [] then []
  else if ciIsPrefixOf "http://".toList href || ciIsPrefixOf "https://".toList href then
    href
  else if ciIsPrefixOf "mailto:".toList href || ciIsPrefixOf "tel:".toList href then
    href
  else if href.head? = some '/' ∨ href.head? = some '#' then href
  else []

def linkSvg : List Char :=
  ("<svg xmlns=\"http://www.w3.org/2000/svg\" width=\"24\" height=\"24\" " ++
   "viewBox=\"0 0 24 24\" fill=\"none\" stroke=\"currentColor\" stroke-width=\"2\" " ++
   "stroke-linecap=\"round\" stroke-linejoin=\"round\" class=\"md-icon md-icon-external\">" ++
   "<path d=\"M18 13v6a2 2 0 0 1-2 2H5a2 2 0 0 1-2-2V8a2 2 0 0 1 2-2h6\"></path>" ++
   "<polyline points=\"15 3 21 3 21 9\"></polyline>" ++
   "<line x1=\"10\" y1=\"14\" x2=\"21\" y2=\"3\"></line></svg>").toList

/-- The anchor markup of markdown.js:186-188, or the bare label when
`safeLink` rejects the target. -/
def anchorOrLabel (label href : List Char) : List Char :=
  let url := safeLink href
  let tooltip := escapeHtml href
  if url = [] then label
  else
    "<a class=\"md-link md-link--external\" href=\"".toList ++ escapeAttr url ++
      "\" target=\"_blank\" rel=\"noreferrer noopener\"><span class=\"md-link__label\">".toList ++
      label ++ "</span> ".toList ++ linkSvg ++
      "<span class=\"md-link__tooltip\">".toList ++ tooltip ++ "</span></a>".toList

/-- The link markup `\[([^\]]+?)\]\(([^)]+?)\)` matched just after a `[`:
a nonempty bracket-free label up to `]`, then `(`, a nonempty
parenthesis-free target up to `)`.  Returns (label, href, rest). -/
def matchLink (rest : List Char) :
    Option (List Char × List Char × List Char) :=
  let label := rest.takeWhile (fun x => x ≠ ']')
  if label ≠ [] ∧ (rest.drop label.length).head? = some ']' then
    match rest.drop (label.length + 1) with
    | c2 :: r2 =>
      if c2 == '(' then
        let href := r2.takeWhile (fun x => x ≠ ')')
        if href ≠ [] ∧ (r2.drop href.length).head? = some ')' then
          some (label, href, r2.drop (href.length + 1))
        else none
      else none
    | [] => none
  else none

/-- `/\[([^\]]+?)\]\(([^)]+?)\)/g` -/
def linksGo : Nat → List Char → List Char
  | 0, cs => cs
  | _, [] => []
  | f + 1, c :: rest =>
    if c == '[' then
      match matchLink rest with
      | some (label, href, after) => anchorOrLabel label href ++ linksGo f after
      | none => c :: linksGo f rest
    else c :: linksGo f rest

def renderLinks (cs : List Char) : List Char := linksGo (cs.length + 1) cs

/-! ### Step 6: newlines to `<br />`, and break trimming -/

def brStage : List Char → List Char
  | [] => []
  | '\n' :: rest => "<br />".toList ++ brStage rest
  | c :: rest => c :: brStage rest

/-- `<br\s*\/?>` at the head; returns the rest on a match. -/
def matchBr (cs : List Char) : Option (List Char) :=
  if "<br".toList.isPrefixOf cs then
    match (cs.drop 3).dropWhile jsWhitespace with
    | '/' :: '>' :: rest => some rest
    | '>' :: rest => some rest
    | _ => none
  else none

/-- `h[1-4]|hr|table|ul|ol|blockquote` at the head; returns the rest. -/
def matchTagName (cs : List Char) : Option (List Char) :=
  if "h1".toList.isPrefixOf cs then some (cs.drop 2)
  else if "h2".toList.isPrefixOf cs then some (cs.drop 2)
  else if "h3".toList.isPrefixOf cs then some (cs.drop 2)
  else if "h4".toList.isPrefixOf cs then some (cs.drop 2)
  else if "hr".toList.isPrefixOf cs then some (cs.drop 2)
  else if "table".toList.isPrefixOf cs then some (cs.drop 5)
  else if "ul".toList.isPrefixOf cs then some (cs.drop 2)
  else if "ol".toList.isPrefixOf cs then some (cs.drop 2)
  else if "blockquote".toList.isPrefixOf cs then some (cs.drop 10)
  else none

/-- `<(?:h[1-4]|hr|table|ul|ol|blockquote)\b[^>]*>` at the head; returns
the matched text and the rest. -/
def matchBlockOpen (cs : List Char) : Option (List Char × List Char) :=
  match cs with
  | '<' :: r =>
    match matchTagName r with
    | some rest2 =>
      match rest2.head? with
      | some nc =>
        if isWordChar nc then none
        else
          let attrs := rest2.takeWhile (fun x => x ≠ '>')
          if (rest2.drop attrs.length).head? = some '>' then
            let total := 1 + (r.length - rest2.length) + attrs.length + 1
            some (cs.take total, cs.drop total)
          else none
      | none => none
    | none => none
  | _ => none

/-- `(?:<br\s*\/?>\s*)+` — at least one break, each with trailing
whitespace; returns the rest after the maximal run. -/
def brRun : Nat → List Char → Bool → Option (List Char)
  | 0, _, _ => none
  | f + 1, cs, seen =>
    match matchBr cs with
    | some rest => brRun f (rest.dropWhile jsWhitespace) true
    | none => if seen then some cs else none

/-- 6.1a: `(<br\s*\/?>\s*)+(<block...>)` replaced by the block tag. -/
def trimBrBeforeBlock : Nat → List Char → List Char
  | 0, cs => cs
  | _, [] => []
  | f + 1, c :: rest =>
    match brRun (rest.length + 2) (c :: rest) false with
    | some rest2 =>
      match matchBlockOpen rest2 with
      | some (tagTxt, after) => tagTxt ++ trimBrBeforeBlock f after
      | none => c :: trimBrBeforeBlock f rest
    | none => c :: trimBrBeforeBlock f rest

/-- `<\/(?:h[1-4]|hr|table|ul|ol|blockquote)>` at the head. -/
def matchBlockClose (cs : List Char) : Option (List Char × List Char) :=
  match cs with
  | '<' :: '/' :: r =>
    match matchTagName r with
    | some rest2 =>
      match rest2 with
      | '>' :: _ =>
        let total := 2 + (r.length - rest2.length) + 1
        some (cs.take total, cs.drop total)
      | _ => none
    | none => none
  | _ => none

/-- `(?:\s*<br\s*\/?>)+` — whitespace before each break, no trailing
whitespace consumed after the last one. -/
def brRunWsBefore : Nat → List Char → Bool → Option (List Char)
  | 0, _, _ => none
  | f + 1, cs, seen =>
    match matchBr (cs.dropWhile jsWhitespace) with
    | some rest => brRunWsBefore f rest true
    | none => if seen then some cs else none

/-- 6.1b: `(<\/block>)(?:\s*<br\s*\/?>)+` replaced by the closing tag. -/
def trimBrAfterBlockClose : Nat → List Char → List Char
  | 0, cs => cs
  | _, [] => []
  | f + 1, c :: rest =>
    match matchBlockClose (c :: rest) with
    | some (tagTxt, after) =>
      match brRunWsBefore (after.length + 1) after false with
      | some rest2 => tagTxt ++ trimBrAfterBlockClose f rest2
      | none => c :: trimBrAfterBlockClose f rest
    | none => c :: trimBrAfterBlockClose f rest

def divCodeblockOpenPrefix : List Char := "<div class=\"md-codeblock\"".toList

/-- The lookahead `(?=<div class="md-codeblock"\b)`; the `\b` sits after a
quote (a non-word character), so it requires a word character next. -/
def lookaheadDivCodeblock (cs : List Char) : Bool :=
  divCodeblockOpenPrefix.isPrefixOf cs &&
    ((cs.drop divCodeblockOpenPrefix.length).head?.map isWordChar).getD false

/-- 6.2a: `<br\s*\/?>\s*(?=<div class="md-codeblock"\b)` removed.  (The
restore step runs after this pass and emits `"md-codeblock">`, whose `>`
fails the `\b`, so on pipeline output this pass matches nothing; it is
embedded faithfully all the same.) -/
def trimBrBeforeCodeDiv : Nat → List Char → List Char
  | 0, cs => cs
  | _, [] => []
  | f + 1, c :: rest =>
    match matchBr (c :: rest) with
    | some after =>
      let ws := after.dropWhile jsWhitespace
      if lookaheadDivCodeblock ws then trimBrBeforeCodeDiv f ws
      else c :: trimBrBeforeCodeDiv f rest
    | none => c :: trimBrBeforeCodeDiv f rest

/-- First occurrence of a literal; returns (before, after). -/
def findLit (lit : List Char) : Nat → List Char → List Char →
    Option (List Char × List Char)
  | 0, _, _ => none
  | f + 1, acc, cs =>
    if lit.isPrefixOf cs then some (acc.reverse, cs.drop lit.length)
    else
      match cs with
      | c :: rest => findLit lit f (c :: acc) rest
      | [] => none

/-- `<div class="md-codeblock"[^>]*>[\s\S]*?<\/div>` at the head. -/
def matchDivBlock (cs : List Char) : Option (List Char × List Char) :=
  if divCodeblockOpenPrefix.isPrefixOf cs then
    let r := cs.drop divCodeblockOpenPrefix.length
    let attrs := r.takeWhile (fun x => x ≠ '>')
    if (r.drop attrs.length).head? = some '>' then
      let body := r.drop (attrs.length + 1)
      match findLit "</div>".toList (body.length + 1) [] body with
      | some (inner, rest) =>
        let total := divCodeblockOpenPrefix.length + attrs.length + 1 +
          inner.length + 6
        some (cs.take total, rest)
      | none => none
    else none
  else none

/-- 6.2b: `(<div class="md-codeblock"...>...<\/div>)\s*(?:<br\s*\/?>\s*)+`
replaced by the div.  (Also unreachable from pipeline output, see above.) -/
def trimBrAfterCodeDiv : Nat → List Char → List Char
  | 0, cs => cs
  | _, [] => []
  | f + 1, c :: rest =>
    match matchDivBlock (c :: rest) with
    | some (divTxt, after) =>
      match brRun (after.length + 1) (after.dropWhile jsWhitespace) false with
      | some rest2 => divTxt ++ trimBrAfterCodeDiv f rest2
      | none => c :: trimBrAfterCodeDiv f rest
    | none => c :: trimBrAfterCodeDiv f rest

/-! ### Step 7: restore code blocks (markdown.js:219-235) -/

def isUnreservedURI (c : Char) : Bool :=
  c.isAlpha || c.isDigit || c == '-' || c == '_' || c == '.' || c == '!' ||
    c == '~' || c == '*' || c == Char.ofNat 39 || c == '(' || c == ')'

def hexDigitUpper (n : Nat) : Char :=
  if n < 10 then Char.ofNat (48 + n) else Char.ofNat (55 + n)

def utf8Bytes (c : Char) : List Nat :=
  let n := c.toNat
  if n < 0x80 then [n]
  else if n < 0x800 then [0xc0 + n / 0x40, 0x80 + n % 0x40]
  else if n < 0x10000 then
    [0xe0 + n / 0x1000, 0x80 + (n / 0x40) % 0x40, 0x80 + n % 0x40]
  else
    [0xf0 + n / 0x40000, 0x80 + (n / 0x1000) % 0x40, 0x80 + (n / 0x40) % 0x40,
      0x80 + n % 0x40]

def encodeURIComponent (cs : List Char) : List Char :=
  (cs.map (fun c =>
    if isUnreservedURI c then [c]
    else ((utf8Bytes c).map (fun b =>
      ['%', hexDigitUpper (b / 16), hexDigitUpper (b % 16)])).flatten)).flatten

def copySvg : List Char :=
  ("<svg class=\"md-icon md-icon-copy\" viewBox=\"0 0 24 24\" width=\"16\" " ++
   "height=\"16\" aria-hidden=\"true\"><path d=\"M16 1H4a2 2 0 0 0-2 2v12h2V3h12V1zm3 " ++
   "4H8a2 2 0 0 0-2 2v14a2 2 0 0 0 2 2h11a2 2 0 0 0 2-2V7a2 2 0 0 0-2-2zm0 " ++
   "16H8V7h11v14z\"/></svg>").toList

/-- The code-block container markup (markdown.js:219-234). -/
def renderCodeBlock (blk : CodeBlock) : List Char :=
  let title := if jsTrim blk.lang ≠ [] then jsTrim blk.lang else "code".toList
  let titleLabel := escapeHtml title
  let lc := (title.map lowerChar).filter (fun c =>
    ('a' ≤ c && c ≤ 'z') || c.isDigit || c == '_' || c == '-')
  let languageClass := if lc = [] then "code".toList else lc
  let escapedCode := escapeHtml blk.code
  let encodedForCopy := encodeURIComponent blk.code
  let headPart :=
    "<div class=\"md-codeblock__header\"><div class=\"md-codeblock__lang\">".toList ++
      titleLabel ++
      ("</div><button type=\"button\" class=\"md-codeblock__copy\" " ++
        "aria-label=\"Copy code\" title=\"Copy code\" data-copy-code=\"").toList ++
      escapeAttr encodedForCopy ++ "\">".toList ++ copySvg ++
      "</button></div>".toList
  let bodyPart :=
    "<pre class=\"md-codeblock__pre\"><code class=\"md-codeblock__code language-".toList ++
      languageClass ++ "\">".toList ++ escapedCode ++ "</code></pre>".toList
  "<div class=\"md-codeblock\">".toList ++ headPart ++ bodyPart ++ "</div>".toList

/-- `/@@CODEBLOCK(\d+)@@/g`.  An index past the extracted list (possible
only if the user typed a literal placeholder) makes the JavaScript
destructuring throw; the model substitutes an empty block there — no claim
touches that corner. -/
def restoreCodeBlocksGo (blocks : List CodeBlock) : Nat → List Char → List Char
  | 0, cs => cs
  | _, [] => []
  | f + 1, c :: rest =>
    if "@@CODEBLOCK".toList.isPrefixOf (c :: rest) then
      let after := (c :: rest).drop 11
      let digits := after.takeWhile (·.isDigit)
      if digits ≠ [] ∧ "@@".toList.isPrefixOf (after.drop digits.length) then
        renderCodeBlock (blocks.getD (digitsToNat digits) ⟨[], []⟩) ++
          restoreCodeBlocksGo blocks f ((after.drop digits.length).drop 2)
      else c :: restoreCodeBlocksGo blocks f rest
    else c :: restoreCodeBlocksGo blocks f rest

/-! ### The full pipeline (markdown.js:1-238) -/

theorem linksGo_nil (f : Nat) : linksGo f [] = [] := by cases f <;> rfl

theorem linksGo_cons_succ (f : Nat) (c : Char) (rest : List Char) :
    linksGo (f + 1) (c :: rest) =
      if c == '[' then
        (match matchLink rest with
         | some (l, h, a) => anchorOrLabel l h ++ linksGo f a
         | none => c :: linksGo f rest)
      else c :: linksGo f rest := rfl

/-- On well-formed link markup the matcher returns exactly its label and
target. -/
theorem matchLink_spec (label href rest : List Char)
    (hlabel : label ≠ []) (hlc : ∀ c ∈ label, c ≠ ']')
    (hhref : href ≠ []) (hhc : ∀ c ∈ href, c ≠ ')') :
    matchLink (label ++ (']' :: '(' :: (href ++ (')' :: rest)))) =
      some (label, href, rest) := by
  have htake : (label ++ (']' :: '(' :: (href ++ (')' :: rest)))).takeWhile
      (fun x => x ≠ ']') = label := by
    rw [List.takeWhile_append_of_pos (by intro a ha; simpa using hlc a ha)]
    simp [List.takeWhile]
  have hdrop : (label ++ (']' :: '(' :: (href ++ (')' :: rest)))).drop
      label.length = ']' :: '(' :: (href ++ (')' :: rest)) :=
    List.drop_left label _
  have hdrop2 : (label ++ (']' :: '(' :: (href ++ (')' :: rest)))).drop
      (label.length + 1) = '(' :: (href ++ (')' :: rest)) := by
    have h := List.drop_left (label ++ [']']) ('(' :: (href ++ (')' :: rest)))
    simpa [List.append_assoc] using h
  have htake2 : (href ++ (')' :: rest)).takeWhile (fun x => x ≠ ')') = href := by
    rw [List.takeWhile_append_of_pos (by intro a ha; simpa using hhc a ha)]
    simp [List.takeWhile]
  have hdrop3 : (href ++ (')' :: rest)).drop href.length = ')' :: rest :=
    List.drop_left href _
  have hdrop4 : (href ++ (')' :: rest)).drop (href.length + 1) = rest := by
    have h := List.drop_left (href ++ [')']) rest
    simpa [List.append_assoc] using h
  unfold matchLink
  rw [htake, if_pos ⟨hlabel, by rw [hdrop]; rfl⟩, hdrop2]
  dsimp only
  rw [if_pos (by decide : (('(' : Char) == '(') = true)]
  rw [htake2, if_pos ⟨hhref, by rw [hdrop3]; rfl⟩, hdrop4]

def markdownToHTML (s : String) : String :=
  let t0 := stripThink s.toList
  let t1 := normalizeExoticSpaces t0
  let t2 := balanceStreamingCodeFence t1
  let t3 := normalizeNewlines (t2.length + 1) t2
  let ex := extractCodeBlocks t3
  let t4 := escapeHtml ex.1
  let t5 := joinNL ((lines t4).map headingLine)
  let t6 := joinNL ((lines t5).map hrLine)
  let t7 := joinNL (groupLines olLine? olWrap ((lines t6).length + 1) (lines t6))
  let t8 := joinNL (groupLines bqLine? bqWrap ((lines t7).length + 1) (lines t7))
  let t9 := joinNL (groupLines ulLine? ulWrap ((lines t8).length + 1) (lines t8))
  let t10 := joinNL (tableStage ((lines t9).length + 1) (lines t9))
  let t11 := applyInline t10
  let t12 := renderLinks t11
  let t13 := brStage t12
  let t14 := trimBrBeforeBlock (t13.length + 1) t13
  let t15 := trimBrAfterBlockClose (t14.length + 1) t14
  let t16 := trimBrBeforeCodeDiv (t15.length + 1) t15
  let t17 := trimBrAfterCodeDiv (t16.length + 1) t16
  String.mk (restoreCodeBlocksGo ex.2 (t17.length + 1) t17)

/-! ### C5 -/

set_option maxRecDepth 100000 in
/-- C5 counterexample: a tilde fence is never extracted into a placeholder
— the extraction regex `/```([^\n]*)\n([\s\S]*?)```/` matches only triple
backticks — so tilde-fenced contents are reformatted by later stages: the
fenced line `# x` comes out as a heading. -/
theorem tilde_fence_not_extracted_cx :
    extractCodeBlocks "~~~\n# x\n~~~".toList = ("~~~\n# x\n~~~".toList, []) ∧
    markdownToHTML "~~~\n# x\n~~~" =
      "~~~<h1 class=\"md-heading md-heading--1\">x</h1>~~~" := by
  decide

set_option maxRecDepth 100000 in
/-- C5 amended: an unterminated fence of 3+ backticks or tildes is
virtually closed by appending a matching fence; triple-backtick blocks are
extracted verbatim (trailing blank lines trimmed) into placeholders, so
their contents are not reformatted — a `# x` body stays literal inside the
emitted code block — and `render("```js\ncode")` produces exactly the
closed code-block container for language `js` and body `code`. -/
theorem code_fence_handling :
    String.mk (balanceStreamingCodeFence "```js\ncode".toList) = "```js\ncode\n```" ∧
    String.mk (balanceStreamingCodeFence "~~~~\ncode".toList) = "~~~~\ncode\n~~~~" ∧
    extractCodeBlocks "```js\ncode\n```".toList =
      ("@@CODEBLOCK0@@".toList, [⟨"js".toList, "code".toList⟩]) ∧
    markdownToHTML "```js\ncode" =
      String.mk (renderCodeBlock ⟨"js".toList, "code".toList⟩) ∧
    markdownToHTML "```\n# x\n```" =
      String.mk (renderCodeBlock ⟨[], "# x".toList⟩) := by
  decide

/-! ### C6 -/

set_option maxRecDepth 100000 in
/-- C6: a link target is accepted exactly when (after trimming) it starts
with `http://`, `https://`, `mailto:`, `tel:` (case-insensitive), `/` or
`#`; on well-formed link markup the link stage emits the anchor markup for
accepted targets and degrades to the bare label for rejected ones; and on
the spec's own example the renderer emits the literal label with no anchor
element (the regex's `[^)]+?` target stops at the first `)`, so the final
parenthesis stays as literal text). -/
theorem safeLink_filters_anchors :
    (∀ href : List Char,
      safeLink href ≠ [] ↔
        (jsTrim href ≠ [] ∧
          (ciIsPrefixOf "http://".toList (jsTrim href) = true ∨
           ciIsPrefixOf "https://".toList (jsTrim href) = true ∨
           ciIsPrefixOf "mailto:".toList (jsTrim href) = true ∨
           ciIsPrefixOf "tel:".toList (jsTrim href) = true ∨
           (jsTrim href).head? = some '/' ∨
           (jsTrim href).head? = some '#'))) ∧
    (∀ label href : List Char, label ≠ [] → (∀ c ∈ label, c ≠ ']') →
      href ≠ [] → (∀ c ∈ href, c ≠ ')') →
      renderLinks ('[' :: (label ++ (']' :: '(' :: (href ++ [')'])))) =
        anchorOrLabel label href ∧
      (safeLink href = [] →
        renderLinks ('[' :: (label ++ (']' :: '(' :: (href ++ [')'])))) = label)) ∧
    markdownToHTML "[x](javascript:alert(1))" = "x)" ∧
    safeLink "javascript:alert(1".toList = [] ∧
    markdownToHTML "[x](https://e.com)" =
      String.mk (anchorOrLabel "x".toList "https://e.com".toList) := by
  refine ⟨?_, ?_, by decide, by decide, by decide⟩
  · intro href
    unfold safeLink
    dsimp only
    split_ifs with h1 h2 h3 h4 <;> simp_all <;> tauto
  · intro label href hl hlc hh hhc
    have hstage :
        renderLinks ('[' :: (label ++ (']' :: '(' :: (href ++ [')'])))) =
          anchorOrLabel label href := by
      unfold renderLinks
      rw [linksGo_cons_succ, if_pos (by decide : (('[' : Char) == '[') = true)]
      rw [show (href ++ [')'] : List Char) = href ++ (')' :: ([] : List Char)) from rfl]
      rw [matchLink_spec label href [] hl hlc hh hhc]
      dsimp only
      rw [linksGo_nil, List.append_nil]
    refine ⟨hstage, fun hz => ?_⟩
    rw [hstage]
    simp [anchorOrLabel, hz]

/-- Witness for C6: a rejected scheme degrades to the bare label, and the
acceptance test recognises an `https://` target. -/
theorem safeLink_filters_anchors_witness :
    renderLinks ('[' :: ("x".toList ++ (']' :: '(' :: ("evil:x".toList ++ [')'])))) =
      "x".toList ∧
    safeLink "https://e.com".toList ≠ [] :=
  ⟨(safeLink_filters_anchors.2.1 "x".toList "evil:x".toList
      (by decide) (by decide) (by decide) (by decide)).2 (by decide),
   (safeLink_filters_anchors.1 "https://e.com".toList).2 (by decide)⟩

end Markdown
